import Mathlib

/-!
Verification of the tether-rally FPV transport core against its specification.

The definitions below are shallow embeddings of the C sources:
  - fpv-receiver/src/protocol.{h,c} (wire codec, serial arithmetic),
  - fpv-receiver/src/assembler.{h,c} (frame assembler),
  - fpv-sender-c/src/sender.c and protocol.c (fragmentation, IDR parse),
  - fpv-receiver/src/stun.c (STUN response parsing),
  - fpv-receiver/src/main.c (receiver session state machine).
Machine integers are modelled as Nat with explicit reductions modulo 2^w at
the points where the C code truncates; byte buffers are modelled as functions
from index to byte value together with an explicit length.
-/

namespace Fpv

/-! ## Protocol constants (protocol.h / assembler.h) -/

def FPV_MAX_PAYLOAD_SIZE : Nat := 1200
def FPV_MAX_FRAGMENTS : Nat := 64
def FPV_MAX_AU_SIZE : Nat := 131072
def FPV_FRAME_TIMEOUT_MS : Nat := 80
def FPV_MAX_INFLIGHT_FRAMES : Nat := 12
def FPV_SESSION_IDLE_TIMEOUT_MS : Nat := 3000
def FPV_VIDEO_FRAGMENT_HEADER_SIZE : Nat := 28
def FPV_FLAG_KEYFRAME : Nat := 1
def FPV_FLAG_SPSPPS : Nat := 2

def U16 : Nat := 65536
def U32 : Nat := 4294967296
def U64 : Nat := 18446744073709551616
def HALF32 : Nat := 2147483648

/-! ## RFC-1982 serial arithmetic (protocol.c lines 208-217)

The C code computes `(int32_t)(a - b)` on uint32 operands.  For
`a, b < 2^32` the unsigned difference is `d = (a + 2^32 - b) % 2^32` and the
signed reinterpretation is positive iff `0 < d < 2^31` and negative iff
`d >= 2^31` (the value `d = 2^31` maps to `-2^31 < 0`). -/

def serialDiff (a b : Nat) : Nat := (a + U32 - b % U32) % U32

def fpv_is_newer (a b : Nat) : Bool :=
  0 < serialDiff a b && serialDiff a b < HALF32

def fpv_is_older (a b : Nat) : Bool :=
  HALF32 ≤ serialDiff a b

/-- Condition `(int32_t)(a - b) > 1` used in fpv_assembler_add_fragment. -/
def serialGtOne (a b : Nat) : Bool :=
  1 < serialDiff a b && serialDiff a b < HALF32

/-! ## Assembler data model (assembler.h) -/

/-- One in-flight frame assembly slot: fpv_frame_assembly_t.
`frag_offsets` and `frag_lengths` model the uint16 arrays; `data` models the
byte buffer `uint8_t data[FPV_MAX_AU_SIZE]`. -/
structure Slot where
  frame_id : Nat
  ts_ms : Nat
  first_seen_us : Nat
  frag_count : Nat
  frags_received : Nat
  flags : Nat
  active : Bool
  received_mask : Nat
  frag_offsets : Nat → Nat
  frag_lengths : Nat → Nat
  data : Nat → Nat
  data_len : Nat

/-- The all-zero slot produced by `memset(frame, 0, sizeof(*frame))`. -/
def Slot.zeroed : Slot :=
  ⟨0, 0, 0, 0, 0, 0, false, 0, fun _ => 0, fun _ => 0, fun _ => 0, 0⟩

/-- Assembler statistics: fpv_assembler_stats_t. -/
structure Stats where
  fragments_received : Nat
  frames_completed : Nat
  frames_dropped_timeout : Nat
  frames_dropped_superseded : Nat
  frames_dropped_overflow : Nat
  duplicate_fragments : Nat

def Stats.zero : Stats := ⟨0, 0, 0, 0, 0, 0⟩

/-- Assembler state: fpv_assembler_t.  `frames i` for `i < 12` models the
slot array; the latest access unit is inlined field by field. -/
structure AsmState where
  frames : Nat → Slot
  newest_frame_id : Nat
  have_newest : Bool
  latest_data : Nat → Nat
  latest_len : Nat
  latest_frame_id : Nat
  latest_ts_ms : Nat
  latest_is_keyframe : Bool
  latest_has_spspps : Bool
  latest_first_packet_time_us : Nat
  latest_assembly_complete_us : Nat
  has_latest_au : Bool
  needs_idr : Bool
  stats : Stats

/-- State after fpv_assembler_init: everything zeroed. -/
def initState : AsmState :=
  { frames := fun _ => Slot.zeroed
    newest_frame_id := 0
    have_newest := false
    latest_data := fun _ => 0
    latest_len := 0
    latest_frame_id := 0
    latest_ts_ms := 0
    latest_is_keyframe := false
    latest_has_spspps := false
    latest_first_packet_time_us := 0
    latest_assembly_complete_us := 0
    has_latest_au := false
    needs_idr := false
    stats := Stats.zero }

/-- A parsed video fragment (fpv_video_fragment_t), the fields the assembler
reads.  `payload j` is the j-th payload byte. -/
structure Frag where
  frame_id : Nat
  ts_ms : Nat
  frag_index : Nat
  frag_count : Nat
  flags : Nat
  payload_len : Nat
  payload : Nat → Nat

/-- Update a single entry of the slot array. -/
def setFrame (fs : Nat → Slot) (i : Nat) (s : Slot) : Nat → Slot :=
  fun j => if j = i then s else fs j

/-- First loop of find_or_create_slot: index of an active slot with the given
frame id. -/
def findActiveIdx (s : AsmState) (fid : Nat) : Option Nat :=
  (List.range FPV_MAX_INFLIGHT_FRAMES).find?
    (fun i => (s.frames i).active && (s.frames i).frame_id == fid)

/-- Second loop of find_or_create_slot: index of the first inactive slot. -/
def findEmptyIdx (s : AsmState) : Option Nat :=
  (List.range FPV_MAX_INFLIGHT_FRAMES).find? (fun i => !(s.frames i).active)

/-- Third loop of find_or_create_slot: the left-to-right scan that keeps the
index whose frame id compares older via fpv_is_older. -/
def oldestIdx (s : AsmState) : Nat :=
  ((List.range FPV_MAX_INFLIGHT_FRAMES).drop 1).foldl
    (fun o i =>
      if fpv_is_older (s.frames i).frame_id (s.frames o).frame_id then i else o) 0

/-- find_or_create_slot (assembler.c lines 59-95); returns the chosen slot
index together with the state (the overflow branch bumps the counter and
deactivates the evicted slot). -/
def findOrCreateSlot (s : AsmState) (fid : Nat) : Nat × AsmState :=
  match findActiveIdx s fid with
  | some i => (i, s)
  | none =>
    match findEmptyIdx s with
    | some i => (i, s)
    | none =>
      let o := oldestIdx s
      let s1 :=
        if (s.frames o).active then
          { s with stats :=
              { s.stats with frames_dropped_overflow :=
                  s.stats.frames_dropped_overflow + 1 } }
        else s
      let evicted := { s1.frames o with active := false }
      (o, { s1 with frames := setFrame s1.frames o evicted })

/-- Loop body of drop_older_frames for slot index `i`. -/
def dropOlderStep (fid : Nat) (st : AsmState) (i : Nat) : AsmState :=
  if (st.frames i).active && fpv_is_older (st.frames i).frame_id fid then
    { st with
        frames := setFrame st.frames i ({ st.frames i with active := false })
        stats := { st.stats with frames_dropped_superseded :=
            st.stats.frames_dropped_superseded + 1 } }
  else st

/-- drop_older_frames (assembler.c lines 98-111). -/
def dropOlderFrames (s : AsmState) (fid : Nat) : AsmState :=
  (List.range FPV_MAX_INFLIGHT_FRAMES).foldl (dropOlderStep fid) s

/-- The concatenation loop of complete_frame (assembler.c lines 122-136):
returns the new latest-AU byte function and total length.  Bytes beyond
`total_len` keep whatever the previous buffer content was, as with the C
memcpy into the persistent buffer. -/
def completeStep (fr : Slot) (acc : (Nat → Nat) × Nat) (i : Nat) :
    (Nat → Nat) × Nat :=
  if fr.received_mask.testBit i then
    (fun j =>
        if acc.2 ≤ j && j < acc.2 + fr.frag_lengths i then
          fr.data (fr.frag_offsets i + (j - acc.2))
        else acc.1 j,
      acc.2 + fr.frag_lengths i)
  else acc

def completeLoop (fr : Slot) (init : Nat → Nat) : (Nat → Nat) × Nat :=
  (List.range (min fr.frag_count FPV_MAX_FRAGMENTS)).foldl
    (completeStep fr) (init, 0)

/-- complete_frame (assembler.c lines 114-152). -/
def completeFrame (s : AsmState) (idx : Nat) (now : Nat) : AsmState :=
  let fr := s.frames idx
  let au := completeLoop fr s.latest_data
  { s with
      latest_data := au.1
      latest_len := au.2
      latest_frame_id := fr.frame_id
      latest_ts_ms := fr.ts_ms
      latest_is_keyframe := fr.flags.testBit 0
      latest_has_spspps := fr.flags.testBit 1
      latest_first_packet_time_us := fr.first_seen_us
      latest_assembly_complete_us := now
      has_latest_au := true
      stats := { s.stats with frames_completed := s.stats.frames_completed + 1 }
      frames := setFrame s.frames idx ({ fr with active := false }) }

/-- Increment of the fragments_received counter at the top of
fpv_assembler_add_fragment (line 156). -/
def bumpReceived (s : AsmState) : AsmState :=
  { s with stats :=
      { s.stats with fragments_received := s.stats.fragments_received + 1 } }

/-- The stale-drop test at lines 158-166: the fragment is silently dropped
iff it is older than the newest seen frame id by more than one. -/
def staleDrop (s : AsmState) (f : Frag) : Bool :=
  s.have_newest && fpv_is_older f.frame_id s.newest_frame_id &&
    serialGtOne s.newest_frame_id f.frame_id

/-- The newest-advance step at lines 168-178. -/
def advanceNewest (s : AsmState) (f : Frag) : AsmState :=
  if !s.have_newest || fpv_is_newer f.frame_id s.newest_frame_id then
    let s1 := if s.have_newest then dropOlderFrames s f.frame_id else s
    { s1 with newest_frame_id := f.frame_id, have_newest := true }
  else s

/-- The fresh slot written at lines 195-203 when the chosen slot is
inactive: memset to zero, then the header fields of the fragment. -/
def freshSlot (f : Frag) (now : Nat) : Slot :=
  { Slot.zeroed with
      frame_id := f.frame_id
      ts_ms := f.ts_ms
      first_seen_us := now
      frag_count := f.frag_count
      flags := f.flags
      active := true }

def initSlotIfNeeded (s : AsmState) (idx : Nat) (f : Frag) (now : Nat) :
    AsmState :=
  if !(s.frames idx).active then
    { s with frames := setFrame s.frames idx (freshSlot f now) }
  else s

/-- The slot contents after storing one fragment (lines 219-227). -/
def storeIntoSlot (fr : Slot) (f : Frag) : Slot :=
  let offset := fr.data_len
  { fr with
      data := fun j =>
        if offset ≤ j && j < offset + f.payload_len then
          f.payload (j - offset)
        else fr.data j
      frag_offsets := fun i =>
        if i = f.frag_index then offset % U16 else fr.frag_offsets i
      frag_lengths := fun i =>
        if i = f.frag_index then f.payload_len else fr.frag_lengths i
      data_len := offset + f.payload_len
      received_mask := fr.received_mask ||| 2 ^ f.frag_index
      frags_received := fr.frags_received + 1
      flags := fr.flags ||| f.flags }

/-- Duplicate check, payload store, and completion check
(assembler.c lines 205-235). -/
def storeFragment (s : AsmState) (idx : Nat) (f : Frag) (now : Nat) :
    AsmState :=
  let fr := s.frames idx
  if fr.received_mask.testBit f.frag_index then
    { s with stats := { s.stats with duplicate_fragments :=
        s.stats.duplicate_fragments + 1 } }
  else if FPV_MAX_AU_SIZE < fr.data_len + f.payload_len then s
  else
    let fr' := storeIntoSlot fr f
    let s' := { s with frames := setFrame s.frames idx fr' }
    if fr'.frags_received = fr'.frag_count then completeFrame s' idx now
    else s'

/-- fpv_assembler_add_fragment (assembler.c lines 154-236).  `now` models the
value fpv_get_time_us() would return while this fragment is processed. -/
def addFragment (s0 : AsmState) (f : Frag) (now : Nat) : AsmState :=
  let s := bumpReceived s0
  if staleDrop s f then s
  else
    let s := advanceNewest s f
    if FPV_MAX_FRAGMENTS < f.frag_count then s
    else if f.frag_count ≤ f.frag_index then s
    else
      let pr := findOrCreateSlot s f.frame_id
      storeFragment (initSlotIfNeeded pr.2 pr.1 f now) pr.1 f now

/-- Timeout test for one slot: `now - frame->first_seen_us > timeout_us`
on uint64 operands. -/
def timedOut (fr : Slot) (now : Nat) : Bool :=
  fr.active && FPV_FRAME_TIMEOUT_MS * 1000 < (now + U64 - fr.first_seen_us % U64) % U64

/-- Loop body of fpv_assembler_check_timeouts for slot index `i`. -/
def timeoutSweep (now : Nat) (st : AsmState) (i : Nat) : AsmState :=
  if timedOut (st.frames i) now then
    { st with
        frames := setFrame st.frames i ({ st.frames i with active := false })
        stats := { st.stats with frames_dropped_timeout :=
            st.stats.frames_dropped_timeout + 1 }
        needs_idr := true }
  else st

/-- fpv_assembler_check_timeouts (assembler.c lines 238-257). -/
def checkTimeouts (s : AsmState) (now : Nat) : AsmState :=
  (List.range FPV_MAX_INFLIGHT_FRAMES).foldl (timeoutSweep now) s

/-! ## Traces of assembler events -/

/-- An externally visible assembler event: a fragment arrival (with the
monotonic time at which it is processed) or a periodic timeout sweep. -/
inductive Ev where
  | add (f : Frag) (now : Nat)
  | timeouts (now : Nat)

def stepEv (s : AsmState) (e : Ev) : AsmState :=
  match e with
  | Ev.add f now => addFragment s f now
  | Ev.timeouts now => checkTimeouts s now

def runTrace (evs : List Ev) : AsmState :=
  evs.foldl stepEv initState

/-- The frame id published by one step, if the step completed a frame
(complete_frame is the only site that increments frames_completed and it
publishes the completed frame id to latest_au). -/
def stepPub (s : AsmState) (e : Ev) : Option Nat :=
  let s' := stepEv s e
  if s.stats.frames_completed < s'.stats.frames_completed then
    some s'.latest_frame_id
  else none

/-- The sequence of frame ids published to latest_au while running a trace
from a given state. -/
def pubSeqFrom (s : AsmState) : List Ev → List Nat
  | [] => []
  | e :: evs =>
    match stepPub s e with
    | some p => p :: pubSeqFrom (stepEv s e) evs
    | none => pubSeqFrom (stepEv s e) evs

def pubSeq (evs : List Ev) : List Nat :=
  pubSeqFrom initState evs

/-! ## Characterization of the per-slot sweeps -/

theorem any_congr_mem {α : Type} {p q : α → Bool} :
    ∀ {l : List α}, (∀ a ∈ l, p a = q a) → l.any p = l.any q := by
  intro l
  induction l with
  | nil => intro _; rfl
  | cons a l ih =>
    intro h
    simp only [List.any_cons]
    rw [h a (List.mem_cons_self a l), ih (fun b hb => h b (List.mem_cons_of_mem a hb))]

theorem timedOut_deactivated (fr : Slot) (now : Nat) :
    timedOut ({ fr with active := false }) now = false := by
  simp [timedOut]

/-- Full characterization of the check_timeouts sweep over a duplicate-free
index list: each index whose slot times out is deactivated (all other slot
fields kept), the timeout counter grows by the number of such indices,
needs_idr is set iff it was set or some slot timed out, and nothing else in
the state changes. -/
theorem timeoutSweep_foldl (now : Nat) :
    ∀ (l : List Nat), l.Nodup → ∀ s : AsmState,
      (∀ j, (l.foldl (timeoutSweep now) s).frames j =
          if j ∈ l ∧ timedOut (s.frames j) now = true then
            { s.frames j with active := false } else s.frames j) ∧
      (l.foldl (timeoutSweep now) s).stats.frames_dropped_timeout =
        s.stats.frames_dropped_timeout +
          l.countP (fun i => timedOut (s.frames i) now) ∧
      (l.foldl (timeoutSweep now) s).needs_idr =
        (s.needs_idr || l.any (fun i => timedOut (s.frames i) now)) ∧
      (l.foldl (timeoutSweep now) s).stats.frames_dropped_superseded =
        s.stats.frames_dropped_superseded ∧
      (l.foldl (timeoutSweep now) s).stats.frames_dropped_overflow =
        s.stats.frames_dropped_overflow ∧
      (l.foldl (timeoutSweep now) s).stats.frames_completed =
        s.stats.frames_completed ∧
      (l.foldl (timeoutSweep now) s).stats.fragments_received =
        s.stats.fragments_received ∧
      (l.foldl (timeoutSweep now) s).newest_frame_id = s.newest_frame_id ∧
      (l.foldl (timeoutSweep now) s).have_newest = s.have_newest ∧
      (l.foldl (timeoutSweep now) s).latest_frame_id = s.latest_frame_id := by
  intro l
  induction l with
  | nil =>
    intro _ s
    simp
  | cons i l ih =>
    intro hnd s
    rcases List.nodup_cons.mp hnd with ⟨hi, hnd'⟩
    simp only [List.foldl_cons]
    have H := ih hnd' (timeoutSweep now s i)
    by_cases hto : timedOut (s.frames i) now = true
    · have hstep : timeoutSweep now s i =
        { s with
            frames := setFrame s.frames i ({ s.frames i with active := false })
            stats := { s.stats with frames_dropped_timeout :=
                s.stats.frames_dropped_timeout + 1 }
            needs_idr := true } := by
        simp [timeoutSweep, hto]
      have hframes : ∀ k, k ≠ i →
          (timeoutSweep now s i).frames k = s.frames k := by
        intro k hk
        rw [hstep]
        simp [setFrame, hk]
      have hframesi : (timeoutSweep now s i).frames i =
          { s.frames i with active := false } := by
        rw [hstep]; simp [setFrame]
      refine ⟨?_, ?_, ?_, ?_, ?_, ?_, ?_, ?_, ?_, ?_⟩
      · intro j
        have hj := H.1 j
        by_cases hji : j = i
        · subst hji
          rw [hj]
          have : (j ∈ l ∧ timedOut ((timeoutSweep now s j).frames j) now = true)
              = False := by
            simp [hframesi, timedOut_deactivated]
          rw [if_neg (by simp [hframesi, timedOut_deactivated])]
          simp [hframesi, List.mem_cons, hto]
        · rw [hj, hframes j hji]
          by_cases hjl : j ∈ l
          · simp [hjl, List.mem_cons, hji]
          · simp [hjl, List.mem_cons, hji]
      · have hcong : l.countP
              (fun k => timedOut ((timeoutSweep now s i).frames k) now) =
            l.countP (fun k => timedOut (s.frames k) now) := by
          apply List.countP_congr
          intro k hk
          have := hframes k (fun h => hi (h ▸ hk))
          simp [this]
        rw [H.2.1, hcong, hstep, List.countP_cons]
        simp [hto]
        omega
      · have hcong : l.any
              (fun k => timedOut ((timeoutSweep now s i).frames k) now) =
            l.any (fun k => timedOut (s.frames k) now) := by
          apply any_congr_mem
          intro k hk
          have := hframes k (fun h => hi (h ▸ hk))
          simp [this]
        rw [H.2.2.1, hcong, hstep]
        simp [hto]
      · rw [H.2.2.2.1, hstep]
      · rw [H.2.2.2.2.1, hstep]
      · rw [H.2.2.2.2.2.1, hstep]
      · rw [H.2.2.2.2.2.2.1, hstep]
      · rw [H.2.2.2.2.2.2.2.1, hstep]
      · rw [H.2.2.2.2.2.2.2.2.1, hstep]
      · rw [H.2.2.2.2.2.2.2.2.2, hstep]
    · have hstep : timeoutSweep now s i = s := by
        simp [timeoutSweep, hto]
      rw [hstep] at H
      rw [hstep]
      refine ⟨?_, ?_, ?_, H.2.2.2.1, H.2.2.2.2.1, H.2.2.2.2.2.1,
        H.2.2.2.2.2.2.1, H.2.2.2.2.2.2.2.1, H.2.2.2.2.2.2.2.2.1,
        H.2.2.2.2.2.2.2.2.2⟩
      · intro j
        rw [H.1 j]
        by_cases hji : j = i
        · subst hji
          simp [hi, hto]
        · simp [List.mem_cons, hji]
      · rw [H.2.1, List.countP_cons]
        simp [hto]
      · rw [H.2.2.1, List.any_cons]
        simp [hto]

/-- Predicate of the drop_older_frames loop for one slot. -/
def superseded (fid : Nat) (fr : Slot) : Bool :=
  fr.active && fpv_is_older fr.frame_id fid

theorem superseded_deactivated (fid : Nat) (fr : Slot) :
    superseded fid ({ fr with active := false }) = false := by
  simp [superseded]

/-- Full characterization of the drop_older_frames sweep over a
duplicate-free index list: each active slot strictly older than `fid` is
deactivated (all other slot fields kept), the superseded counter grows by
the number of such slots, and nothing else in the state changes; in
particular needs_idr is untouched. -/
theorem dropOlderStep_foldl (fid : Nat) :
    ∀ (l : List Nat), l.Nodup → ∀ s : AsmState,
      (∀ j, (l.foldl (dropOlderStep fid) s).frames j =
          if j ∈ l ∧ superseded fid (s.frames j) = true then
            { s.frames j with active := false } else s.frames j) ∧
      (l.foldl (dropOlderStep fid) s).stats.frames_dropped_superseded =
        s.stats.frames_dropped_superseded +
          l.countP (fun i => superseded fid (s.frames i)) ∧
      (l.foldl (dropOlderStep fid) s).needs_idr = s.needs_idr ∧
      (l.foldl (dropOlderStep fid) s).stats.frames_dropped_timeout =
        s.stats.frames_dropped_timeout ∧
      (l.foldl (dropOlderStep fid) s).stats.frames_dropped_overflow =
        s.stats.frames_dropped_overflow ∧
      (l.foldl (dropOlderStep fid) s).stats.frames_completed =
        s.stats.frames_completed ∧
      (l.foldl (dropOlderStep fid) s).stats.fragments_received =
        s.stats.fragments_received ∧
      (l.foldl (dropOlderStep fid) s).stats.duplicate_fragments =
        s.stats.duplicate_fragments ∧
      (l.foldl (dropOlderStep fid) s).newest_frame_id = s.newest_frame_id ∧
      (l.foldl (dropOlderStep fid) s).have_newest = s.have_newest ∧
      (l.foldl (dropOlderStep fid) s).latest_frame_id = s.latest_frame_id ∧
      (l.foldl (dropOlderStep fid) s).latest_data = s.latest_data ∧
      (l.foldl (dropOlderStep fid) s).latest_len = s.latest_len ∧
      (l.foldl (dropOlderStep fid) s).latest_ts_ms = s.latest_ts_ms ∧
      (l.foldl (dropOlderStep fid) s).has_latest_au = s.has_latest_au := by
  intro l
  induction l with
  | nil =>
    intro _ s
    simp
  | cons i l ih =>
    intro hnd s
    rcases List.nodup_cons.mp hnd with ⟨hi, hnd'⟩
    simp only [List.foldl_cons]
    have H := ih hnd' (dropOlderStep fid s i)
    by_cases hp : superseded fid (s.frames i) = true
    · have hstep : dropOlderStep fid s i =
        { s with
            frames := setFrame s.frames i ({ s.frames i with active := false })
            stats := { s.stats with frames_dropped_superseded :=
                s.stats.frames_dropped_superseded + 1 } } := by
        simp only [dropOlderStep]
        rw [if_pos]
        exact hp
      have hframes : ∀ k, k ≠ i →
          (dropOlderStep fid s i).frames k = s.frames k := by
        intro k hk
        rw [hstep]
        simp [setFrame, hk]
      have hframesi : (dropOlderStep fid s i).frames i =
          { s.frames i with active := false } := by
        rw [hstep]; simp [setFrame]
      refine ⟨?_, ?_, ?_, ?_, ?_, ?_, ?_, ?_, ?_, ?_, ?_, ?_, ?_, ?_, ?_⟩
      · intro j
        have hj := H.1 j
        by_cases hji : j = i
        · subst hji
          rw [hj]
          rw [if_neg (by simp [hframesi, superseded_deactivated])]
          simp [hframesi, List.mem_cons, hp]
        · rw [hj, hframes j hji]
          by_cases hjl : j ∈ l
          · simp [hjl, List.mem_cons, hji]
          · simp [hjl, List.mem_cons, hji]
      · have hcong : l.countP
              (fun k => superseded fid ((dropOlderStep fid s i).frames k)) =
            l.countP (fun k => superseded fid (s.frames k)) := by
          apply List.countP_congr
          intro k hk
          have := hframes k (fun h => hi (h ▸ hk))
          simp [this]
        rw [H.2.1, hcong, hstep, List.countP_cons]
        simp [hp]
        omega
      · rw [H.2.2.1, hstep]
      · rw [H.2.2.2.1, hstep]
      · rw [H.2.2.2.2.1, hstep]
      · rw [H.2.2.2.2.2.1, hstep]
      · rw [H.2.2.2.2.2.2.1, hstep]
      · rw [H.2.2.2.2.2.2.2.1, hstep]
      · rw [H.2.2.2.2.2.2.2.2.1, hstep]
      · rw [H.2.2.2.2.2.2.2.2.2.1, hstep]
      · rw [H.2.2.2.2.2.2.2.2.2.2.1, hstep]
      · rw [H.2.2.2.2.2.2.2.2.2.2.2.1, hstep]
      · rw [H.2.2.2.2.2.2.2.2.2.2.2.2.1, hstep]
      · rw [H.2.2.2.2.2.2.2.2.2.2.2.2.2.1, hstep]
      · rw [H.2.2.2.2.2.2.2.2.2.2.2.2.2.2, hstep]
    · have hstep : dropOlderStep fid s i = s := by
        simp only [dropOlderStep]
        rw [if_neg]
        simp only [superseded] at hp
        exact fun h => hp h
      rw [hstep] at H
      rw [hstep]
      refine ⟨?_, ?_, H.2.2.1, H.2.2.2.1, H.2.2.2.2.1, H.2.2.2.2.2.1,
        H.2.2.2.2.2.2.1, H.2.2.2.2.2.2.2.1, H.2.2.2.2.2.2.2.2.1,
        H.2.2.2.2.2.2.2.2.2.1, H.2.2.2.2.2.2.2.2.2.2.1,
        H.2.2.2.2.2.2.2.2.2.2.2.1, H.2.2.2.2.2.2.2.2.2.2.2.2.1,
        H.2.2.2.2.2.2.2.2.2.2.2.2.2.1, H.2.2.2.2.2.2.2.2.2.2.2.2.2.2⟩
      · intro j
        rw [H.1 j]
        by_cases hji : j = i
        · subst hji
          simp [hi, hp]
        · simp [List.mem_cons, hji]
      · rw [H.2.1, List.countP_cons]
        simp [hp]

theorem nodup_range12 : (List.range FPV_MAX_INFLIGHT_FRAMES).Nodup :=
  List.nodup_range FPV_MAX_INFLIGHT_FRAMES

theorem dropOlderFrames_needs_idr (s : AsmState) (fid : Nat) :
    (dropOlderFrames s fid).needs_idr = s.needs_idr :=
  (dropOlderStep_foldl fid (List.range FPV_MAX_INFLIGHT_FRAMES)
    nodup_range12 s).2.2.1

theorem dropOlderFrames_superseded (s : AsmState) (fid : Nat) :
    (dropOlderFrames s fid).stats.frames_dropped_superseded =
      s.stats.frames_dropped_superseded +
        (List.range FPV_MAX_INFLIGHT_FRAMES).countP
          (fun i => superseded fid (s.frames i)) :=
  (dropOlderStep_foldl fid (List.range FPV_MAX_INFLIGHT_FRAMES)
    nodup_range12 s).2.1

theorem findOrCreateSlot_preserved (s : AsmState) (fid : Nat) :
    (findOrCreateSlot s fid).2.needs_idr = s.needs_idr ∧
    (findOrCreateSlot s fid).2.stats.frames_dropped_superseded =
      s.stats.frames_dropped_superseded ∧
    (findOrCreateSlot s fid).2.stats.frames_dropped_timeout =
      s.stats.frames_dropped_timeout ∧
    (findOrCreateSlot s fid).2.stats.frames_completed =
      s.stats.frames_completed ∧
    (findOrCreateSlot s fid).2.stats.fragments_received =
      s.stats.fragments_received ∧
    (findOrCreateSlot s fid).2.stats.duplicate_fragments =
      s.stats.duplicate_fragments ∧
    (findOrCreateSlot s fid).2.newest_frame_id = s.newest_frame_id ∧
    (findOrCreateSlot s fid).2.have_newest = s.have_newest ∧
    (findOrCreateSlot s fid).2.latest_frame_id = s.latest_frame_id ∧
    (findOrCreateSlot s fid).2.has_latest_au = s.has_latest_au := by
  unfold findOrCreateSlot
  cases findActiveIdx s fid with
  | some i => simp
  | none =>
    cases findEmptyIdx s with
    | some i => simp
    | none =>
      by_cases h : (s.frames (oldestIdx s)).active = true <;> simp [h]

theorem completeFrame_preserved (s : AsmState) (idx : Nat) (now : Nat) :
    (completeFrame s idx now).needs_idr = s.needs_idr ∧
    (completeFrame s idx now).stats.frames_dropped_superseded =
      s.stats.frames_dropped_superseded ∧
    (completeFrame s idx now).stats.frames_dropped_timeout =
      s.stats.frames_dropped_timeout ∧
    (completeFrame s idx now).stats.frames_dropped_overflow =
      s.stats.frames_dropped_overflow ∧
    (completeFrame s idx now).stats.fragments_received =
      s.stats.fragments_received ∧
    (completeFrame s idx now).stats.frames_completed =
      s.stats.frames_completed + 1 ∧
    (completeFrame s idx now).newest_frame_id = s.newest_frame_id ∧
    (completeFrame s idx now).have_newest = s.have_newest ∧
    (completeFrame s idx now).latest_frame_id = (s.frames idx).frame_id ∧
    (completeFrame s idx now).has_latest_au = true := by
  simp [completeFrame]

theorem initSlotIfNeeded_preserved (s : AsmState) (idx : Nat) (f : Frag)
    (now : Nat) :
    (initSlotIfNeeded s idx f now).needs_idr = s.needs_idr ∧
    (initSlotIfNeeded s idx f now).stats = s.stats ∧
    (initSlotIfNeeded s idx f now).newest_frame_id = s.newest_frame_id ∧
    (initSlotIfNeeded s idx f now).have_newest = s.have_newest := by
  unfold initSlotIfNeeded
  split <;> simp

theorem storeFragment_preserved (s : AsmState) (idx : Nat) (f : Frag)
    (now : Nat) :
    (storeFragment s idx f now).needs_idr = s.needs_idr ∧
    (storeFragment s idx f now).stats.frames_dropped_superseded =
      s.stats.frames_dropped_superseded ∧
    (storeFragment s idx f now).stats.frames_dropped_timeout =
      s.stats.frames_dropped_timeout ∧
    (storeFragment s idx f now).stats.frames_dropped_overflow =
      s.stats.frames_dropped_overflow ∧
    (storeFragment s idx f now).stats.fragments_received =
      s.stats.fragments_received ∧
    (storeFragment s idx f now).newest_frame_id = s.newest_frame_id ∧
    (storeFragment s idx f now).have_newest = s.have_newest := by
  by_cases h1 : (s.frames idx).received_mask.testBit f.frag_index = true
  · simp [storeFragment, h1]
  · by_cases h2 : FPV_MAX_AU_SIZE < (s.frames idx).data_len + f.payload_len
    · simp [storeFragment, h1, h2]
    · by_cases h3 : (storeIntoSlot (s.frames idx) f).frags_received =
          (storeIntoSlot (s.frames idx) f).frag_count
      · rcases completeFrame_preserved
          ({ s with frames := setFrame s.frames idx (storeIntoSlot (s.frames idx) f) })
          idx now with ⟨c1, c2, c3, c4, c5, _, c7, c8, _, _⟩
        simp [storeFragment, h1, h2, h3, c1, c2, c3, c4, c5, c7, c8]
      · simp [storeFragment, h1, h2, h3]

theorem advanceNewest_needs_idr (s : AsmState) (f : Frag) :
    (advanceNewest s f).needs_idr = s.needs_idr := by
  unfold advanceNewest
  split
  · split
    · simp [dropOlderFrames_needs_idr]
    · simp
  · rfl

/-- Needs_idr is never touched by fpv_assembler_add_fragment. -/
theorem addFragment_needs_idr (s : AsmState) (f : Frag) (now : Nat) :
    (addFragment s f now).needs_idr = s.needs_idr := by
  by_cases h1 : staleDrop (bumpReceived s) f = true
  · simp only [addFragment]
    rw [if_pos h1]
    simp [bumpReceived]
  · by_cases h2 : FPV_MAX_FRAGMENTS < f.frag_count
    · simp only [addFragment]
      rw [if_neg h1, if_pos h2, advanceNewest_needs_idr]
      simp [bumpReceived]
    · by_cases h3 : f.frag_count ≤ f.frag_index
      · simp only [addFragment]
        rw [if_neg h1, if_neg h2, if_pos h3, advanceNewest_needs_idr]
        simp [bumpReceived]
      · simp only [addFragment]
        rw [if_neg h1, if_neg h2, if_neg h3,
          (storeFragment_preserved _ _ _ _).1,
          (initSlotIfNeeded_preserved _ _ _ _).1,
          (findOrCreateSlot_preserved _ _).1,
          advanceNewest_needs_idr]
        simp [bumpReceived]

theorem is_newer_not_older (a b : Nat) :
    fpv_is_newer a b = true → fpv_is_older a b = false := by
  simp only [fpv_is_newer, fpv_is_older, Bool.and_eq_true, decide_eq_true_eq,
    decide_eq_false_iff_not]
  omega

/-- How many slots a newest-advance supersedes, as a function of the
pre-state. -/
def supersededCount (s : AsmState) (f : Frag) : Nat :=
  if s.have_newest && fpv_is_newer f.frame_id s.newest_frame_id then
    (List.range FPV_MAX_INFLIGHT_FRAMES).countP
      (fun i => superseded f.frame_id (s.frames i))
  else 0

theorem advanceNewest_superseded (s : AsmState) (f : Frag) :
    (advanceNewest s f).stats.frames_dropped_superseded =
      s.stats.frames_dropped_superseded + supersededCount s f := by
  cases hn : s.have_newest <;>
    cases hw : fpv_is_newer f.frame_id s.newest_frame_id <;>
      simp [advanceNewest, supersededCount, hn, hw, dropOlderFrames_superseded]

theorem addFragment_superseded (s : AsmState) (f : Frag) (now : Nat) :
    (addFragment s f now).stats.frames_dropped_superseded =
      s.stats.frames_dropped_superseded + supersededCount s f := by
  have hb : supersededCount (bumpReceived s) f = supersededCount s f := by
    simp [supersededCount, bumpReceived]
  by_cases h1 : staleDrop (bumpReceived s) f = true
  · have hnw : fpv_is_newer f.frame_id s.newest_frame_id = false := by
      by_contra hc
      have hc' : fpv_is_newer f.frame_id s.newest_frame_id = true := by
        revert hc
        cases fpv_is_newer f.frame_id s.newest_frame_id <;> simp
      have := is_newer_not_older _ _ hc'
      simp [staleDrop, bumpReceived, this] at h1
    simp only [addFragment]
    rw [if_pos h1]
    simp [bumpReceived, supersededCount, hnw]
  · by_cases h2 : FPV_MAX_FRAGMENTS < f.frag_count
    · simp only [addFragment]
      rw [if_neg h1, if_pos h2, advanceNewest_superseded, hb]
      simp [bumpReceived]
    · by_cases h3 : f.frag_count ≤ f.frag_index
      · simp only [addFragment]
        rw [if_neg h1, if_neg h2, if_pos h3, advanceNewest_superseded, hb]
        simp [bumpReceived]
      · simp only [addFragment]
        rw [if_neg h1, if_neg h2, if_neg h3,
          (storeFragment_preserved _ _ _ _).2.1,
          (initSlotIfNeeded_preserved _ _ _ _).2.1,
          (findOrCreateSlot_preserved _ _).2.1,
          advanceNewest_superseded, hb]
        simp [bumpReceived]

/-- The number of slots that time out at `now`. -/
def timedOutCount (s : AsmState) (now : Nat) : Nat :=
  (List.range FPV_MAX_INFLIGHT_FRAMES).countP (fun i => timedOut (s.frames i) now)

/-- Whether any slot times out at `now`. -/
def anyTimedOut (s : AsmState) (now : Nat) : Bool :=
  (List.range FPV_MAX_INFLIGHT_FRAMES).any (fun i => timedOut (s.frames i) now)

theorem checkTimeouts_spec (s : AsmState) (now : Nat) :
    (∀ j, (checkTimeouts s now).frames j =
        if j < FPV_MAX_INFLIGHT_FRAMES ∧ timedOut (s.frames j) now = true then
          { s.frames j with active := false } else s.frames j) ∧
    (checkTimeouts s now).stats.frames_dropped_timeout =
      s.stats.frames_dropped_timeout + timedOutCount s now ∧
    (checkTimeouts s now).needs_idr = (s.needs_idr || anyTimedOut s now) := by
  have H := timeoutSweep_foldl now (List.range FPV_MAX_INFLIGHT_FRAMES)
    nodup_range12 s
  refine ⟨?_, ?_, ?_⟩
  · intro j
    simp only [checkTimeouts]
    rw [H.1 j]
    simp [List.mem_range]
  · simp only [checkTimeouts, timedOutCount]
    exact H.2.1
  · simp only [checkTimeouts, anyTimedOut]
    exact H.2.2.1

/-- C4: fpv_assembler_add_fragment never sets needs_idr; superseding older
in-flight frames only increments frames_dropped_superseded (one per active
slot older than the arriving newer frame id) and leaves needs_idr unchanged.
fpv_assembler_check_timeouts sets needs_idr to true exactly when some active
slot has age now - first_seen_us exceeding FRAME_TIMEOUT_MS (80 ms, in
microseconds), increments frames_dropped_timeout once per such slot, and
deactivates exactly those slots, leaving all other slots untouched. -/
theorem C4_idr_trigger_discipline :
    (∀ (s : AsmState) (f : Frag) (now : Nat),
        (addFragment s f now).needs_idr = s.needs_idr ∧
        (addFragment s f now).stats.frames_dropped_superseded =
          s.stats.frames_dropped_superseded + supersededCount s f) ∧
    (∀ (s : AsmState) (now : Nat),
        (checkTimeouts s now).needs_idr = (s.needs_idr || anyTimedOut s now) ∧
        (checkTimeouts s now).stats.frames_dropped_timeout =
          s.stats.frames_dropped_timeout + timedOutCount s now ∧
        ∀ j, (checkTimeouts s now).frames j =
          if j < FPV_MAX_INFLIGHT_FRAMES ∧ timedOut (s.frames j) now = true
          then { s.frames j with active := false } else s.frames j) :=
  ⟨fun s f now => ⟨addFragment_needs_idr s f now, addFragment_superseded s f now⟩,
   fun s now => ⟨(checkTimeouts_spec s now).2.2, (checkTimeouts_spec s now).2.1,
     (checkTimeouts_spec s now).1⟩⟩

/-! ## The in-flight invariant (claims about slot occupancy)

All reasoning below is parametric in a list `S` of frame ids fed so far;
the antipodal case (serial difference exactly 2^31, where RFC-1982
comparison is not a strict order) is excluded by hypothesis. -/

/-- Indices of active slots. -/
def activeIdxs (s : AsmState) : List Nat :=
  (List.range FPV_MAX_INFLIGHT_FRAMES).filter (fun i => (s.frames i).active)

/-- Invariant maintained by the assembler on traces whose frame ids are
pairwise non-antipodal: every active slot carries a fed frame id whose
serial difference from newest_frame_id is 0 or 1, active slots have
pairwise distinct frame ids, and the overflow counter is zero. -/
structure Inv (s : AsmState) (S : List Nat) : Prop where
  newest_lt : s.newest_frame_id < U32
  newest_mem : s.have_newest = true → s.newest_frame_id ∈ S
  ids_lt : ∀ x ∈ S, x < U32
  slot_mem : ∀ i < FPV_MAX_INFLIGHT_FRAMES, (s.frames i).active = true →
    (s.frames i).frame_id ∈ S
  slot_near : ∀ i < FPV_MAX_INFLIGHT_FRAMES, (s.frames i).active = true →
    s.have_newest = true ∧
      serialDiff s.newest_frame_id (s.frames i).frame_id ≤ 1
  distinct : ∀ i < FPV_MAX_INFLIGHT_FRAMES, ∀ j < FPV_MAX_INFLIGHT_FRAMES,
    i ≠ j → (s.frames i).active = true → (s.frames j).active = true →
    (s.frames i).frame_id ≠ (s.frames j).frame_id
  overflow0 : s.stats.frames_dropped_overflow = 0

theorem Inv.start : Inv initState [] := by
  refine ⟨?_, ?_, ?_, ?_, ?_, ?_, ?_⟩ <;>
    simp [initState, U32, Slot.zeroed, Stats.zero]

theorem Inv.mono {s : AsmState} {S S' : List Nat} (h : Inv s S)
    (hsub : ∀ x ∈ S, x ∈ S') (hlt : ∀ x ∈ S', x < U32) : Inv s S' :=
  ⟨h.newest_lt, fun hn => hsub _ (h.newest_mem hn), hlt,
    fun i hi ha => hsub _ (h.slot_mem i hi ha), h.slot_near, h.distinct,
    h.overflow0⟩

theorem Inv.congr {s s' : AsmState} {S : List Nat}
    (hfr : ∀ i, s'.frames i = s.frames i)
    (hnw : s'.newest_frame_id = s.newest_frame_id)
    (hhn : s'.have_newest = s.have_newest)
    (hov : s'.stats.frames_dropped_overflow = s.stats.frames_dropped_overflow)
    (h : Inv s S) : Inv s' S := by
  refine ⟨?_, ?_, h.ids_lt, ?_, ?_, ?_, ?_⟩
  · rw [hnw]; exact h.newest_lt
  · rw [hhn, hnw]; exact h.newest_mem
  · intro i hi ha
    rw [hfr i] at ha ⊢
    exact h.slot_mem i hi ha
  · intro i hi ha
    rw [hfr i] at ha ⊢
    rw [hhn, hnw]
    exact h.slot_near i hi ha
  · intro i hi j hj hij ha hb
    rw [hfr i] at ha ⊢
    rw [hfr j] at hb ⊢
    exact h.distinct i hi j hj hij ha hb
  · rw [hov]; exact h.overflow0

theorem length_le_two_of_mem_pair {l : List Nat} {a b : Nat}
    (hnd : l.Nodup) (h : ∀ x ∈ l, x = a ∨ x = b) : l.length ≤ 2 := by
  match l, hnd, h with
  | [], _, _ => simp
  | [_], _, _ => simp
  | [_, _], _, _ => simp
  | x :: y :: z :: t, hnd, h =>
    exfalso
    simp only [List.nodup_cons, List.mem_cons, not_or] at hnd
    have hxy : x ≠ y := hnd.1.1
    have hxz : x ≠ z := hnd.1.2.1
    have hyz : y ≠ z := hnd.2.1.1
    have hx := h x (List.mem_cons_self x (y :: z :: t))
    have hy := h y (List.mem_cons_of_mem x (List.mem_cons_self y (z :: t)))
    have hz := h z (List.mem_cons_of_mem x
      (List.mem_cons_of_mem y (List.mem_cons_self z t)))
    rcases hx with hx | hx <;> rcases hy with hy | hy <;>
      rcases hz with hz | hz <;>
        first
          | exact hxy (hx.trans hy.symm)
          | exact hxz (hx.trans hz.symm)
          | exact hyz (hy.trans hz.symm)

/-- Under the invariant at most two of the twelve slots are active. -/
theorem Inv.active_le_two {s : AsmState} {S : List Nat} (h : Inv s S) :
    (activeIdxs s).length ≤ 2 := by
  have hnd : (activeIdxs s).Nodup := List.Nodup.filter _ nodup_range12
  have hmap : ((activeIdxs s).map (fun i => (s.frames i).frame_id)).Nodup := by
    apply List.Nodup.map_on _ hnd
    intro i hi j hj he
    by_contra hij
    have hi' := List.mem_filter.mp hi
    have hj' := List.mem_filter.mp hj
    exact h.distinct i (List.mem_range.mp hi'.1) j (List.mem_range.mp hj'.1)
      hij (by simpa using hi'.2) (by simpa using hj'.2) he
  have hpair : ∀ x ∈ (activeIdxs s).map (fun i => (s.frames i).frame_id),
      x = s.newest_frame_id ∨
        x = (s.newest_frame_id + U32 - 1) % U32 := by
    intro x hx
    rcases List.mem_map.mp hx with ⟨i, hi, rfl⟩
    have hi' := List.mem_filter.mp hi
    have hnear := (h.slot_near i (List.mem_range.mp hi'.1)
      (by simpa using hi'.2)).2
    have hidlt : (s.frames i).frame_id < U32 :=
      h.ids_lt _ (h.slot_mem i (List.mem_range.mp hi'.1) (by simpa using hi'.2))
    have hnlt := h.newest_lt
    simp only [serialDiff, U32] at hnear hidlt hnlt ⊢
    omega
  have := length_le_two_of_mem_pair hmap hpair
  simpa using this

theorem serialDiff_self_le_one (a : Nat) : serialDiff a a ≤ 1 := by
  simp only [serialDiff, U32]
  omega

/-- After the newest-advance phase on a non-stale fragment, the invariant
still holds with the fragment id recorded, and newest_frame_id is within one
of the fragment id. -/
theorem advanceNewest_inv {s : AsmState} {S : List Nat} (f : Frag)
    (hInv : Inv s S) (hf : f.frame_id < U32)
    (hna : ∀ b ∈ S, serialDiff f.frame_id b ≠ HALF32)
    (hstale : staleDrop s f = false) :
    Inv (advanceNewest s f) (f.frame_id :: S) ∧
    (advanceNewest s f).have_newest = true ∧
    serialDiff (advanceNewest s f).newest_frame_id f.frame_id ≤ 1 ∧
    (advanceNewest s f).stats.frames_completed = s.stats.frames_completed := by
  have hlt' : ∀ x ∈ f.frame_id :: S, x < U32 := by
    intro x hx
    rcases List.mem_cons.mp hx with rfl | hx
    · exact hf
    · exact hInv.ids_lt x hx
  by_cases hcond : (!s.have_newest || fpv_is_newer f.frame_id s.newest_frame_id)
      = true
  · by_cases hn : s.have_newest = true
    · have hnew : fpv_is_newer f.frame_id s.newest_frame_id = true := by
        simpa [hn] using hcond
      have hs' : advanceNewest s f =
          { dropOlderFrames s f.frame_id with
              newest_frame_id := f.frame_id, have_newest := true } := by
        simp only [advanceNewest]
        rw [if_pos hcond, if_pos hn]
      have hdrop := dropOlderStep_foldl f.frame_id
        (List.range FPV_MAX_INFLIGHT_FRAMES) nodup_range12 s
      have hnoact : ∀ j, ((dropOlderFrames s f.frame_id).frames j).active = true →
          j < FPV_MAX_INFLIGHT_FRAMES → False := by
        intro j ha hj
        have hp := hdrop.1 j
        rw [show (List.range FPV_MAX_INFLIGHT_FRAMES).foldl
            (dropOlderStep f.frame_id) s = dropOlderFrames s f.frame_id from rfl]
          at hp
        rw [hp] at ha
        by_cases hc : j ∈ List.range FPV_MAX_INFLIGHT_FRAMES ∧
            superseded f.frame_id (s.frames j) = true
        · rw [if_pos hc] at ha
          simp at ha
        · rw [if_neg hc] at ha
          have hsup : superseded f.frame_id (s.frames j) = false := by
            rw [← Bool.not_eq_true]
            intro hh
            exact hc ⟨List.mem_range.mpr hj, hh⟩
          have hnear := (hInv.slot_near j hj ha).2
          have hidlt : (s.frames j).frame_id < U32 :=
            hInv.ids_lt _ (hInv.slot_mem j hj ha)
          have hnlt := hInv.newest_lt
          simp only [superseded, ha, Bool.true_and] at hsup
          simp only [fpv_is_newer, fpv_is_older, serialDiff, U32, HALF32,
            Bool.and_eq_true, decide_eq_true_eq] at hnew hsup hnear
          rcases hnew with ⟨h1, h2⟩
          simp only [decide_eq_false_iff_not, not_le] at hsup
          simp only [U32] at hidlt hnlt hf
          omega
      refine ⟨⟨?_, ?_, hlt', ?_, ?_, ?_, ?_⟩, ?_, ?_, ?_⟩
      · rw [hs']; exact hf
      · intro _
        rw [hs']
        exact List.mem_cons_self _ _
      · intro i hi ha
        rw [hs'] at ha
        exact (hnoact i ha hi).elim
      · intro i hi ha
        rw [hs'] at ha
        exact (hnoact i ha hi).elim
      · intro i hi j hj hij ha hb
        rw [hs'] at ha
        exact (hnoact i ha hi).elim
      · rw [hs']
        have : (dropOlderFrames s f.frame_id).stats.frames_dropped_overflow =
            s.stats.frames_dropped_overflow := hdrop.2.2.2.2.1
        simpa [this] using hInv.overflow0
      · rw [hs']
      · rw [hs']
        exact serialDiff_self_le_one f.frame_id
      · rw [hs']
        exact hdrop.2.2.2.2.2.1
    · have hs' : advanceNewest s f =
          { s with newest_frame_id := f.frame_id, have_newest := true } := by
        simp only [advanceNewest]
        rw [if_pos hcond, if_neg hn]
      have hnoact : ∀ j, (s.frames j).active = true →
          j < FPV_MAX_INFLIGHT_FRAMES → False := by
        intro j ha hj
        exact hn ((hInv.slot_near j hj ha).1)
      refine ⟨⟨?_, ?_, hlt', ?_, ?_, ?_, ?_⟩, ?_, ?_, ?_⟩
      · rw [hs']; exact hf
      · intro _
        rw [hs']
        exact List.mem_cons_self _ _
      · intro i hi ha
        rw [hs'] at ha
        exact (hnoact i ha hi).elim
      · intro i hi ha
        rw [hs'] at ha
        exact (hnoact i ha hi).elim
      · intro i hi j hj hij ha hb
        rw [hs'] at ha
        exact (hnoact i ha hi).elim
      · rw [hs']
        exact hInv.overflow0
      · rw [hs']
      · rw [hs']
        exact serialDiff_self_le_one f.frame_id
      · rw [hs']
  · have hs' : advanceNewest s f = s := by
      simp only [advanceNewest]
      rw [if_neg hcond]
    have hn : s.have_newest = true := by
      rw [← Bool.not_eq_false]
      intro h
      apply hcond
      simp [h]
    have hnotnew : fpv_is_newer f.frame_id s.newest_frame_id = false := by
      rw [← Bool.not_eq_true]
      intro h
      apply hcond
      simp [h]
    have hdiff : serialDiff s.newest_frame_id f.frame_id ≤ 1 := by
      have hmem := hInv.newest_mem hn
      have hanti := hna _ hmem
      have hnlt := hInv.newest_lt
      simp only [staleDrop, hn, Bool.true_and, Bool.and_eq_false_iff] at hstale
      simp only [fpv_is_newer, fpv_is_older, serialGtOne, serialDiff, U32,
        HALF32, Bool.and_eq_false_iff, Bool.and_eq_true, decide_eq_true_eq,
        decide_eq_false_iff_not, not_lt, not_le] at hstale hnotnew hanti ⊢
      simp only [U32] at hnlt hf
      rcases hstale with h | h
      · omega
      · rcases h with h | h <;> omega
    rw [hs']
    exact ⟨hInv.mono (fun x hx => List.mem_cons_of_mem _ hx) hlt', hn, hdiff,
      rfl⟩

/-- Replacing slot `idx` by an active slot whose id is legitimate preserves
the invariant. -/
theorem Inv.setActive {s : AsmState} {S : List Nat} (hInv : Inv s S)
    {idx : Nat} {fr : Slot} (hidx : idx < FPV_MAX_INFLIGHT_FRAMES)
    (hact : fr.active = true) (hid : fr.frame_id ∈ S)
    (hnear : s.have_newest = true ∧
      serialDiff s.newest_frame_id fr.frame_id ≤ 1)
    (hdist : ∀ j < FPV_MAX_INFLIGHT_FRAMES, j ≠ idx →
      (s.frames j).active = true → (s.frames j).frame_id ≠ fr.frame_id) :
    Inv { s with frames := setFrame s.frames idx fr } S := by
  refine ⟨hInv.newest_lt, hInv.newest_mem, hInv.ids_lt, ?_, ?_, ?_,
    hInv.overflow0⟩
  · intro i hi ha
    by_cases hie : i = idx
    · subst hie
      simpa [setFrame] using hid
    · simp only [setFrame, if_neg hie] at ha ⊢
      exact hInv.slot_mem i hi ha
  · intro i hi ha
    by_cases hie : i = idx
    · subst hie
      simpa [setFrame] using hnear
    · simp only [setFrame, if_neg hie] at ha ⊢
      exact hInv.slot_near i hi ha
  · intro i hi j hj hij ha hb
    by_cases hie : i = idx <;> by_cases hje : j = idx
    · exact absurd (hie.trans hje.symm) hij
    · subst hie
      simp only [setFrame, if_pos rfl] at ha ⊢
      simp only [setFrame, if_neg hje] at hb ⊢
      exact fun he => hdist j hj hje hb (he ▸ rfl)
    · subst hje
      simp only [setFrame, if_neg hie] at ha ⊢
      simp only [setFrame, if_pos rfl] at hb ⊢
      exact hdist i hi hie ha
    · simp only [setFrame, if_neg hie] at ha ⊢
      simp only [setFrame, if_neg hje] at hb ⊢
      exact hInv.distinct i hi j hj hij ha hb

/-- complete_frame preserves the invariant (it only deactivates a slot and
rewrites the latest-AU fields). -/
theorem Inv.completeFrame {s : AsmState} {S : List Nat} (hInv : Inv s S)
    (idx now : Nat) : Inv (Fpv.completeFrame s idx now) S := by
  have hfr : ∀ j, (Fpv.completeFrame s idx now).frames j =
      if j = idx then { s.frames idx with active := false } else s.frames j := by
    intro j
    simp [Fpv.completeFrame, setFrame]
  refine ⟨hInv.newest_lt, hInv.newest_mem, hInv.ids_lt, ?_, ?_, ?_, ?_⟩
  · intro i hi ha
    rw [hfr i] at ha ⊢
    by_cases hie : i = idx
    · rw [if_pos hie] at ha
      simp at ha
    · rw [if_neg hie] at ha ⊢
      exact hInv.slot_mem i hi ha
  · intro i hi ha
    rw [hfr i] at ha ⊢
    by_cases hie : i = idx
    · rw [if_pos hie] at ha
      simp at ha
    · rw [if_neg hie] at ha ⊢
      exact hInv.slot_near i hi ha
  · intro i hi j hj hij ha hb
    rw [hfr i] at ha ⊢
    rw [hfr j] at hb ⊢
    by_cases hie : i = idx
    · rw [if_pos hie] at ha
      simp at ha
    · by_cases hje : j = idx
      · rw [if_pos hje] at hb
        simp at hb
      · rw [if_neg hie] at ha ⊢
        rw [if_neg hje] at hb ⊢
        exact hInv.distinct i hi j hj hij ha hb
  · simpa [Fpv.completeFrame] using hInv.overflow0

/-- The store phase keeps the invariant when the target slot is active and
carries the fragment's frame id; on completion the published id is the
fragment's. -/
theorem storeFragment_inv {s : AsmState} {S : List Nat} (f : Frag)
    (now : Nat) {idx : Nat} (hidx : idx < FPV_MAX_INFLIGHT_FRAMES)
    (hInv : Inv s S) (hact : (s.frames idx).active = true)
    (hid : (s.frames idx).frame_id = f.frame_id) (hmem : f.frame_id ∈ S) :
    Inv (storeFragment s idx f now) S ∧
    (storeFragment s idx f now).newest_frame_id = s.newest_frame_id ∧
    ((storeFragment s idx f now).stats.frames_completed ≠
        s.stats.frames_completed →
      (storeFragment s idx f now).latest_frame_id = f.frame_id) := by
  by_cases h1 : (s.frames idx).received_mask.testBit f.frag_index = true
  · have hs' : storeFragment s idx f now =
        { s with stats := { s.stats with duplicate_fragments :=
            s.stats.duplicate_fragments + 1 } } := by
      simp only [storeFragment]
      rw [if_pos h1]
    rw [hs']
    refine ⟨Inv.congr ?_ ?_ ?_ ?_ hInv, rfl, fun h => absurd rfl h⟩
    · intro i; rfl
    · rfl
    · rfl
    · rfl
  · by_cases h2 : FPV_MAX_AU_SIZE < (s.frames idx).data_len + f.payload_len
    · have hs' : storeFragment s idx f now = s := by
        simp only [storeFragment]
        rw [if_neg h1, if_pos h2]
      rw [hs']
      exact ⟨hInv, rfl, fun h => absurd rfl h⟩
    · have hact' : (storeIntoSlot (s.frames idx) f).active = true := by
        simpa [storeIntoSlot] using hact
      have hid' : (storeIntoSlot (s.frames idx) f).frame_id = f.frame_id := by
        simpa [storeIntoSlot] using hid
      have hInv3 : Inv ({ s with frames := setFrame s.frames idx (storeIntoSlot (s.frames idx) f) }) S := by
        apply hInv.setActive hidx hact' (hid' ▸ hmem)
        · rw [hid', ← hid]
          exact hInv.slot_near idx hidx hact
        · intro j hj hje ha
          rw [hid']
          intro he
          exact hInv.distinct j hj idx hidx hje ha hact (he.trans hid.symm)
      by_cases h3 : (storeIntoSlot (s.frames idx) f).frags_received =
          (storeIntoSlot (s.frames idx) f).frag_count
      · have hs' : storeFragment s idx f now =
            Fpv.completeFrame ({ s with frames := setFrame s.frames idx (storeIntoSlot (s.frames idx) f) }) idx now := by
          simp only [storeFragment]
          rw [if_neg h1, if_neg h2, if_pos h3]
        rw [hs']
        refine ⟨hInv3.completeFrame idx now, ?_, ?_⟩
        · simp [Fpv.completeFrame]
        · intro _
          simp [Fpv.completeFrame, setFrame, hid']
      · have hs' : storeFragment s idx f now =
            ({ s with frames := setFrame s.frames idx (storeIntoSlot (s.frames idx) f) }) := by
          simp only [storeFragment]
          rw [if_neg h1, if_neg h2, if_neg h3]
        rw [hs']
        exact ⟨hInv3, rfl, fun h => absurd rfl h⟩

/-- One fpv_assembler_add_fragment step preserves the invariant, and when it
completes a frame, the published frame id is the fragment's and is within
one of the updated newest_frame_id. -/
theorem addFragment_inv {s : AsmState} {S : List Nat} (f : Frag) (now : Nat)
    (hInv : Inv s S) (hf : f.frame_id < U32)
    (hna : ∀ b ∈ S, serialDiff f.frame_id b ≠ HALF32) :
    Inv (addFragment s f now) (f.frame_id :: S) ∧
    ((addFragment s f now).stats.frames_completed ≠ s.stats.frames_completed →
      (addFragment s f now).latest_frame_id = f.frame_id ∧
      serialDiff (addFragment s f now).newest_frame_id f.frame_id ≤ 1) := by
  have hlt' : ∀ x ∈ f.frame_id :: S, x < U32 := by
    intro x hx
    rcases List.mem_cons.mp hx with rfl | hx
    · exact hf
    · exact hInv.ids_lt x hx
  have hInvb : Inv (bumpReceived s) S := by
    refine Inv.congr ?_ ?_ ?_ ?_ hInv
    · intro i; rfl
    · rfl
    · rfl
    · rfl
  by_cases hst : staleDrop (bumpReceived s) f = true
  · have hs' : addFragment s f now = bumpReceived s := by
      simp only [addFragment]
      rw [if_pos hst]
    rw [hs']
    refine ⟨hInvb.mono (fun x hx => List.mem_cons_of_mem _ hx) hlt', ?_⟩
    intro h
    exact absurd rfl h
  · have hst' : staleDrop (bumpReceived s) f = false := by
      rw [← Bool.not_eq_true]
      exact hst
    have hAdv := advanceNewest_inv f hInvb hf hna hst'
    rcases hAdv with ⟨hInv1, hhn1, hdiff1, hcomp1⟩
    by_cases h2 : FPV_MAX_FRAGMENTS < f.frag_count
    · have hs' : addFragment s f now = advanceNewest (bumpReceived s) f := by
        simp only [addFragment]
        rw [if_neg hst, if_pos h2]
      rw [hs']
      refine ⟨hInv1, ?_⟩
      intro h
      rw [hcomp1] at h
      exact absurd rfl h
    · by_cases h3 : f.frag_count ≤ f.frag_index
      · have hs' : addFragment s f now = advanceNewest (bumpReceived s) f := by
          simp only [addFragment]
          rw [if_neg hst, if_neg h2, if_pos h3]
        rw [hs']
        refine ⟨hInv1, ?_⟩
        intro h
        rw [hcomp1] at h
        exact absurd rfl h
      · have hs' : addFragment s f now =
            storeFragment
              (initSlotIfNeeded (findOrCreateSlot (advanceNewest (bumpReceived s) f) f.frame_id).2
                (findOrCreateSlot (advanceNewest (bumpReceived s) f) f.frame_id).1 f now)
              (findOrCreateSlot (advanceNewest (bumpReceived s) f) f.frame_id).1 f now := by
          simp only [addFragment]
          rw [if_neg hst, if_neg h2, if_neg h3]
        rcases hfa : findActiveIdx (advanceNewest (bumpReceived s) f) f.frame_id
          with _ | i
        · rcases hfe : findEmptyIdx (advanceNewest (bumpReceived s) f) with _ | i
          · exfalso
            have hall : ∀ j ∈ List.range FPV_MAX_INFLIGHT_FRAMES,
                ((advanceNewest (bumpReceived s) f).frames j).active = true := by
              intro j hj
              have := List.find?_eq_none.mp hfe j hj
              rcases Bool.eq_false_or_eq_true
                ((advanceNewest (bumpReceived s) f).frames j).active with h | h
              · exact h
              · exact absurd (by simp [h]) this
            have hfilter : activeIdxs (advanceNewest (bumpReceived s) f) =
                List.range FPV_MAX_INFLIGHT_FRAMES := by
              apply List.filter_eq_self.mpr
              intro j hj
              simpa using hall j hj
            have := hInv1.active_le_two
            rw [hfilter] at this
            simp [FPV_MAX_INFLIGHT_FRAMES] at this
          · -- fresh slot in the first empty index
            have hiidx : i < FPV_MAX_INFLIGHT_FRAMES :=
              List.mem_range.mp (List.mem_of_find?_eq_some hfe)
            have hinact : ((advanceNewest (bumpReceived s) f).frames i).active
                = false := by
              have := List.find?_some hfe
              rcases Bool.eq_false_or_eq_true
                ((advanceNewest (bumpReceived s) f).frames i).active with h | h
              · rw [h] at this
                simp at this
              · exact h
            have hpr : findOrCreateSlot (advanceNewest (bumpReceived s) f)
                f.frame_id = (i, advanceNewest (bumpReceived s) f) := by
              simp only [findOrCreateSlot]
              rw [hfa, hfe]
            have hnoid : ∀ j < FPV_MAX_INFLIGHT_FRAMES,
                ((advanceNewest (bumpReceived s) f).frames j).active = true →
                ((advanceNewest (bumpReceived s) f).frames j).frame_id ≠
                  f.frame_id := by
              intro j hj ha he
              have := List.find?_eq_none.mp hfa j (List.mem_range.mpr hj)
              simp [ha, he] at this
            have hinit : initSlotIfNeeded (advanceNewest (bumpReceived s) f) i
                f now = { advanceNewest (bumpReceived s) f with frames := setFrame (advanceNewest (bumpReceived s) f).frames i (freshSlot f now) } := by
              simp only [initSlotIfNeeded]
              rw [if_pos (by simp [hinact])]
            have hInv2 : Inv ({ advanceNewest (bumpReceived s) f with frames := setFrame (advanceNewest (bumpReceived s) f).frames i (freshSlot f now) }) (f.frame_id :: S) := by
              apply hInv1.setActive hiidx (by simp [freshSlot, Slot.zeroed])
                (by simp [freshSlot, Slot.zeroed])
              · simp only [freshSlot, Slot.zeroed]
                exact ⟨hhn1, hdiff1⟩
              · intro j hj hje ha
                simp only [freshSlot, Slot.zeroed]
                exact hnoid j hj ha
            have hact2 : (({ advanceNewest (bumpReceived s) f with frames := setFrame (advanceNewest (bumpReceived s) f).frames i (freshSlot f now) }).frames i).active = true := by
              simp [setFrame, freshSlot, Slot.zeroed]
            have hid2 : (({ advanceNewest (bumpReceived s) f with frames := setFrame (advanceNewest (bumpReceived s) f).frames i (freshSlot f now) }).frames i).frame_id = f.frame_id := by
              simp [setFrame, freshSlot, Slot.zeroed]
            have hSF := storeFragment_inv f now hiidx hInv2 hact2 hid2
              (List.mem_cons_self _ _)
            rw [hs', hpr, hinit]
            refine ⟨hSF.1, ?_⟩
            intro h
            refine ⟨hSF.2.2 ?_, ?_⟩
            · intro he
              apply h
              rw [he, hcomp1]
              rfl
            · rw [hSF.2.1]
              exact hdiff1
        · -- existing active slot for this frame id
          have hiidx : i < FPV_MAX_INFLIGHT_FRAMES :=
            List.mem_range.mp (List.mem_of_find?_eq_some hfa)
          have hps := List.find?_some hfa
          simp only [Bool.and_eq_true, beq_iff_eq] at hps
          have hact1 : ((advanceNewest (bumpReceived s) f).frames i).active
              = true := hps.1
          have hid1 : ((advanceNewest (bumpReceived s) f).frames i).frame_id
              = f.frame_id := hps.2
          have hpr : findOrCreateSlot (advanceNewest (bumpReceived s) f)
              f.frame_id = (i, advanceNewest (bumpReceived s) f) := by
            simp only [findOrCreateSlot]
            rw [hfa]
          have hinit : initSlotIfNeeded (advanceNewest (bumpReceived s) f) i
              f now = advanceNewest (bumpReceived s) f := by
            simp only [initSlotIfNeeded]
            rw [if_neg (by simp [hact1])]
          have hSF := storeFragment_inv f now hiidx hInv1 hact1 hid1
            (List.mem_cons_self _ _)
          rw [hs', hpr, hinit]
          refine ⟨hSF.1, ?_⟩
          intro h
          refine ⟨hSF.2.2 ?_, ?_⟩
          · intro he
            apply h
            rw [he, hcomp1]
            rfl
          · rw [hSF.2.1]
            exact hdiff1

theorem checkTimeouts_inv {s : AsmState} {S : List Nat} (now : Nat)
    (hInv : Inv s S) : Inv (checkTimeouts s now) S := by
  have H := checkTimeouts_spec s now
  have hov : (checkTimeouts s now).stats.frames_dropped_overflow =
      s.stats.frames_dropped_overflow :=
    (timeoutSweep_foldl now (List.range FPV_MAX_INFLIGHT_FRAMES)
      nodup_range12 s).2.2.2.2.1
  have hnw : (checkTimeouts s now).newest_frame_id = s.newest_frame_id :=
    (timeoutSweep_foldl now (List.range FPV_MAX_INFLIGHT_FRAMES)
      nodup_range12 s).2.2.2.2.2.2.2.1
  have hhn : (checkTimeouts s now).have_newest = s.have_newest :=
    (timeoutSweep_foldl now (List.range FPV_MAX_INFLIGHT_FRAMES)
      nodup_range12 s).2.2.2.2.2.2.2.2.1
  refine ⟨?_, ?_, hInv.ids_lt, ?_, ?_, ?_, ?_⟩
  · rw [hnw]; exact hInv.newest_lt
  · rw [hhn, hnw]; exact hInv.newest_mem
  · intro i hi ha
    rw [H.1 i] at ha ⊢
    by_cases hc : i < FPV_MAX_INFLIGHT_FRAMES ∧ timedOut (s.frames i) now = true
    · rw [if_pos hc] at ha
      simp at ha
    · rw [if_neg hc] at ha ⊢
      exact hInv.slot_mem i hi ha
  · intro i hi ha
    rw [H.1 i] at ha ⊢
    rw [hhn, hnw]
    by_cases hc : i < FPV_MAX_INFLIGHT_FRAMES ∧ timedOut (s.frames i) now = true
    · rw [if_pos hc] at ha
      simp at ha
    · rw [if_neg hc] at ha ⊢
      exact hInv.slot_near i hi ha
  · intro i hi j hj hij ha hb
    rw [H.1 i] at ha ⊢
    rw [H.1 j] at hb ⊢
    by_cases hci : i < FPV_MAX_INFLIGHT_FRAMES ∧ timedOut (s.frames i) now = true
    · rw [if_pos hci] at ha
      simp at ha
    · by_cases hcj : j < FPV_MAX_INFLIGHT_FRAMES ∧
          timedOut (s.frames j) now = true
      · rw [if_pos hcj] at hb
        simp at hb
      · rw [if_neg hci] at ha ⊢
        rw [if_neg hcj] at hb ⊢
        exact hInv.distinct i hi j hj hij ha hb
  · rw [hov]; exact hInv.overflow0

theorem checkTimeouts_completed (s : AsmState) (now : Nat) :
    (checkTimeouts s now).stats.frames_completed = s.stats.frames_completed :=
  (timeoutSweep_foldl now (List.range FPV_MAX_INFLIGHT_FRAMES)
    nodup_range12 s).2.2.2.2.2.1

/-- Frame ids of the add events of a trace, in order. -/
def evIds : List Ev → List Nat
  | [] => []
  | Ev.add f _ :: evs => f.frame_id :: evIds evs
  | Ev.timeouts _ :: evs => evIds evs

/-- Published frame id paired with the value of newest_frame_id immediately
after the publishing step. -/
def pubPairs (s : AsmState) : List Ev → List (Nat × Nat)
  | [] => []
  | e :: evs =>
    match stepPub s e with
    | some p => (p, (stepEv s e).newest_frame_id) :: pubPairs (stepEv s e) evs
    | none => pubPairs (stepEv s e) evs

theorem pubPairs_fst (evs : List Ev) : ∀ s : AsmState,
    (pubPairs s evs).map Prod.fst = pubSeqFrom s evs := by
  induction evs with
  | nil => intro s; rfl
  | cons e evs ih =>
    intro s
    simp only [pubPairs, pubSeqFrom]
    cases stepPub s e with
    | some p => simp [ih]
    | none => simp [ih]

/-- Main trace induction: the invariant holds after any trace of
non-antipodal in-range frame ids, and every published frame id is within
one of newest_frame_id at its publication step. -/
theorem trace_inv_pub : ∀ (evs : List Ev) (s : AsmState) (S : List Nat),
    Inv s S →
    (∀ a ∈ evIds evs, a < U32) →
    (∀ a ∈ evIds evs, ∀ b ∈ S, serialDiff a b ≠ HALF32) →
    (∀ a ∈ evIds evs, ∀ b ∈ evIds evs, serialDiff a b ≠ HALF32) →
    (∃ S', Inv (evs.foldl stepEv s) S') ∧
    (∀ pr ∈ pubPairs s evs, serialDiff pr.2 pr.1 ≤ 1) := by
  intro evs
  induction evs with
  | nil =>
    intro s S hInv _ _ _
    exact ⟨⟨S, hInv⟩, by simp [pubPairs]⟩
  | cons e evs ih =>
    intro s S hInv hlt hnaS hpair
    cases e with
    | timeouts now =>
      have hInv' := checkTimeouts_inv now hInv
      have hrec := ih (checkTimeouts s now) S hInv'
        (fun a ha => hlt a (by simpa [evIds] using ha))
        (fun a ha b hb => hnaS a (by simpa [evIds] using ha) b hb)
        (fun a ha b hb => hpair a (by simpa [evIds] using ha) b
          (by simpa [evIds] using hb))
      have hnp : stepPub s (Ev.timeouts now) = none := by
        simp [stepPub, stepEv, checkTimeouts_completed]
      refine ⟨hrec.1, ?_⟩
      intro pr hpr
      simp only [pubPairs, hnp] at hpr
      exact hrec.2 pr hpr
    | add f now =>
      have hfmem : f.frame_id ∈ evIds (Ev.add f now :: evs) := by
        simp [evIds]
      have hf : f.frame_id < U32 := hlt _ hfmem
      have hna : ∀ b ∈ S, serialDiff f.frame_id b ≠ HALF32 :=
        fun b hb => hnaS _ hfmem b hb
      have haf := addFragment_inv f now hInv hf hna
      have hrec := ih (addFragment s f now) (f.frame_id :: S) haf.1
        (fun a ha => hlt a (by simp [evIds]; exact Or.inr ha))
        (fun a ha b hb => by
          rcases List.mem_cons.mp hb with rfl | hb
          · exact hpair a (by simp [evIds]; exact Or.inr ha) f.frame_id hfmem
          · exact hnaS a (by simp [evIds]; exact Or.inr ha) b hb)
        (fun a ha b hb => hpair a (by simp [evIds]; exact Or.inr ha) b
          (by simp [evIds]; exact Or.inr hb))
      refine ⟨hrec.1, ?_⟩
      intro pr hpr
      rcases hp : stepPub s (Ev.add f now) with _ | p
      · simp only [pubPairs, hp] at hpr
        exact hrec.2 pr hpr
      · simp only [pubPairs, hp] at hpr
        rcases List.mem_cons.mp hpr with rfl | hpr
        · have hlt' : s.stats.frames_completed <
              (addFragment s f now).stats.frames_completed := by
            by_contra hc
            simp [stepPub, stepEv, if_neg hc] at hp
          have hc2 := haf.2 (by omega)
          have hpv : p = (addFragment s f now).latest_frame_id := by
            simp only [stepPub, stepEv] at hp
            rw [if_pos hlt'] at hp
            exact (Option.some.injEq _ _ ▸ hp).symm
          simp only [stepEv]
          rw [hpv, hc2.1]
          exact hc2.2
        · exact hrec.2 pr hpr

/-! ## Concrete fragments used in counterexamples and witnesses -/

/-- A single-fragment frame: one fragment completes the frame. -/
def frag1of1 (fid : Nat) : Frag :=
  ⟨fid, 0, 0, 1, 0, 1, fun _ => 0⟩

/-- First fragment of a two-fragment frame: the frame stays incomplete. -/
def frag0of2 (fid : Nat) : Frag :=
  ⟨fid, 0, 0, 2, 0, 1, fun _ => 0⟩

/-- C10 as stated is false: after feeding a fragment of frame 0 and then a
fragment of the antipodal frame id 2^31 (both fpv_is_older and fpv_is_newer
reject the pair, so it is neither dropped as stale nor advances newest), an
active slot holds frame id 2^31 while newest_frame_id is 0, which is neither
newest_frame_id nor newest_frame_id - 1. -/
theorem C10_counterexample :
    ((runTrace [Ev.add (frag0of2 0) 0, Ev.add (frag0of2 HALF32) 0]).frames 1).active
        = true ∧
    (runTrace [Ev.add (frag0of2 0) 0, Ev.add (frag0of2 HALF32) 0]).newest_frame_id
        = 0 ∧
    ((runTrace [Ev.add (frag0of2 0) 0, Ev.add (frag0of2 HALF32) 0]).frames 1).frame_id
        = HALF32 ∧
    ¬(((runTrace [Ev.add (frag0of2 0) 0, Ev.add (frag0of2 HALF32) 0]).frames 1).frame_id
          = (runTrace [Ev.add (frag0of2 0) 0, Ev.add (frag0of2 HALF32) 0]).newest_frame_id ∨
      ((runTrace [Ev.add (frag0of2 0) 0, Ev.add (frag0of2 HALF32) 0]).frames 1).frame_id
          = ((runTrace [Ev.add (frag0of2 0) 0, Ev.add (frag0of2 HALF32) 0]).newest_frame_id
              + U32 - 1) % U32) := by
  decide

/-- C10 (amended): on every trace of add_fragment and check_timeouts events
whose fragment frame ids are 32-bit values no two of which are antipodal
(serial difference exactly 2^31), every active slot frame id is within one of
newest_frame_id (that is, equal to it or one behind in serial arithmetic), at
most 2 of the 12 slots are active, and frames_dropped_overflow remains 0. -/
theorem C10_inflight_bound (evs : List Ev)
    (hlt : ∀ a ∈ evIds evs, a < U32)
    (hna : ∀ a ∈ evIds evs, ∀ b ∈ evIds evs, serialDiff a b ≠ HALF32) :
    (∀ i < FPV_MAX_INFLIGHT_FRAMES, ((runTrace evs).frames i).active = true →
      serialDiff (runTrace evs).newest_frame_id
        ((runTrace evs).frames i).frame_id ≤ 1) ∧
    (activeIdxs (runTrace evs)).length ≤ 2 ∧
    (runTrace evs).stats.frames_dropped_overflow = 0 := by
  have h := trace_inv_pub evs initState [] Inv.start hlt (by simp) hna
  rcases h.1 with ⟨S', hInv⟩
  exact ⟨fun i hi ha => (hInv.slot_near i hi ha).2, hInv.active_le_two,
    hInv.overflow0⟩

theorem C10_inflight_bound_witness :
    ((∀ a ∈ evIds [Ev.add (frag0of2 10) 0, Ev.add (frag1of1 11) 1], a < U32) ∧
     (∀ a ∈ evIds [Ev.add (frag0of2 10) 0, Ev.add (frag1of1 11) 1],
       ∀ b ∈ evIds [Ev.add (frag0of2 10) 0, Ev.add (frag1of1 11) 1],
         serialDiff a b ≠ HALF32)) ∧
    ((∀ i < FPV_MAX_INFLIGHT_FRAMES,
        ((runTrace [Ev.add (frag0of2 10) 0, Ev.add (frag1of1 11) 1]).frames i).active = true →
        serialDiff (runTrace [Ev.add (frag0of2 10) 0, Ev.add (frag1of1 11) 1]).newest_frame_id
          ((runTrace [Ev.add (frag0of2 10) 0, Ev.add (frag1of1 11) 1]).frames i).frame_id ≤ 1) ∧
     (activeIdxs (runTrace [Ev.add (frag0of2 10) 0, Ev.add (frag1of1 11) 1])).length ≤ 2 ∧
     (runTrace [Ev.add (frag0of2 10) 0, Ev.add (frag1of1 11) 1]).stats.frames_dropped_overflow = 0) :=
  ⟨⟨by decide, by decide⟩,
    C10_inflight_bound [Ev.add (frag0of2 10) 0, Ev.add (frag1of1 11) 1]
      (by decide) (by decide)⟩

/-- C5 as stated is false: a trace that completes frame 5 and then frame 4
(one behind, which the stale-drop check at assembler.c line 162 deliberately
admits) publishes latest_au.frame_id 5 followed by 4, so the published
stream is not monotonically non-decreasing under fpv_is_older. -/
theorem C5_counterexample :
    pubSeq [Ev.add (frag1of1 5) 0, Ev.add (frag1of1 4) 0] = [5, 4] ∧
    fpv_is_older 4 5 = true := by
  decide

/-- C5 (amended): on every trace whose fragment frame ids are 32-bit values
no two of which are antipodal, the stream of frame ids published to
latest_au (pubSeq) can step backwards, but each published frame id is, at
its publication step, within one of newest_frame_id: the assembler never
publishes a frame more than one behind the newest frame id seen. -/
theorem C5_assembler_output_near_newest (evs : List Ev)
    (hlt : ∀ a ∈ evIds evs, a < U32)
    (hna : ∀ a ∈ evIds evs, ∀ b ∈ evIds evs, serialDiff a b ≠ HALF32) :
    (pubPairs initState evs).map Prod.fst = pubSeq evs ∧
    ∀ pr ∈ pubPairs initState evs, serialDiff pr.2 pr.1 ≤ 1 :=
  ⟨pubPairs_fst evs initState,
    (trace_inv_pub evs initState [] Inv.start hlt (by simp) hna).2⟩

theorem C5_assembler_output_near_newest_witness :
    ((∀ a ∈ evIds [Ev.add (frag1of1 7) 0], a < U32) ∧
     (∀ a ∈ evIds [Ev.add (frag1of1 7) 0],
       ∀ b ∈ evIds [Ev.add (frag1of1 7) 0], serialDiff a b ≠ HALF32)) ∧
    ((pubPairs initState [Ev.add (frag1of1 7) 0]).map Prod.fst =
        pubSeq [Ev.add (frag1of1 7) 0] ∧
     ∀ pr ∈ pubPairs initState [Ev.add (frag1of1 7) 0],
       serialDiff pr.2 pr.1 ≤ 1) :=
  ⟨⟨by decide, by decide⟩,
    C5_assembler_output_near_newest [Ev.add (frag1of1 7) 0]
      (by decide) (by decide)⟩

/-! ## Overflow eviction (find_or_create_slot third loop) -/

/-- Within a half-plane window around `base`, fpv_is_older compares the
window positions. -/
theorem is_older_iff_pos_lt (x y base : Nat)
    (hx : serialDiff x base < HALF32) (hy : serialDiff y base < HALF32) :
    fpv_is_older x y = true ↔ serialDiff x base < serialDiff y base := by
  simp only [fpv_is_older, serialDiff, U32, HALF32, decide_eq_true_eq] at *
  omega

/-- The left-to-right fpv_is_older scan returns an index of minimal window
position among the start index and the scanned list. -/
theorem scan_oldest_spec (ids : Nat → Nat) (base : Nat) :
    ∀ (l : List Nat) (c : Nat),
      (∀ i ∈ l, serialDiff (ids i) base < HALF32) →
      serialDiff (ids c) base < HALF32 →
      (l.foldl (fun o i => if fpv_is_older (ids i) (ids o) then i else o) c = c ∨
        l.foldl (fun o i => if fpv_is_older (ids i) (ids o) then i else o) c ∈ l) ∧
      serialDiff (ids (l.foldl
          (fun o i => if fpv_is_older (ids i) (ids o) then i else o) c)) base ≤
        serialDiff (ids c) base ∧
      (∀ i ∈ l, serialDiff (ids (l.foldl
          (fun o i => if fpv_is_older (ids i) (ids o) then i else o) c)) base ≤
        serialDiff (ids i) base) := by
  intro l
  induction l with
  | nil =>
    intro c _ hc
    exact ⟨Or.inl rfl, Nat.le_refl _, by simp⟩
  | cons i l ih =>
    intro c hl hc
    have hi : serialDiff (ids i) base < HALF32 :=
      hl i (List.mem_cons_self i l)
    have hl' : ∀ j ∈ l, serialDiff (ids j) base < HALF32 :=
      fun j hj => hl j (List.mem_cons_of_mem i hj)
    simp only [List.foldl_cons]
    by_cases hcmp : fpv_is_older (ids i) (ids c) = true
    · have hlt := (is_older_iff_pos_lt (ids i) (ids c) base hi hc).mp hcmp
      rw [if_pos hcmp]
      rcases ih i hl' hi with ⟨hmem, hle, hall⟩
      refine ⟨?_, ?_, ?_⟩
      · rcases hmem with h | h
        · refine Or.inr ?_
          rw [h]
          exact List.mem_cons_self i l
        · exact Or.inr (List.mem_cons_of_mem i h)
      · omega
      · intro j hj
        rcases List.mem_cons.mp hj with rfl | hj
        · exact hle
        · exact hall j hj
    · have hge : ¬ serialDiff (ids i) base < serialDiff (ids c) base := by
        intro h
        exact hcmp ((is_older_iff_pos_lt (ids i) (ids c) base hi hc).mpr h)
      rw [if_neg hcmp]
      rcases ih c hl' hc with ⟨hmem, hle, hall⟩
      refine ⟨?_, hle, ?_⟩
      · rcases hmem with h | h
        · exact Or.inl h
        · exact Or.inr (List.mem_cons_of_mem i h)
      · intro j hj
        rcases List.mem_cons.mp hj with rfl | hj
        · omega
        · exact hall j hj

theorem oldestIdx_lt (s : AsmState) : oldestIdx s < FPV_MAX_INFLIGHT_FRAMES := by
  have h := scan_oldest_spec (fun i => (s.frames i).frame_id) 0
    ((List.range FPV_MAX_INFLIGHT_FRAMES).drop 1) 0
  unfold oldestIdx
  rcases Classical.em (∀ i ∈ (List.range FPV_MAX_INFLIGHT_FRAMES).drop 1,
      serialDiff (s.frames i).frame_id 0 < HALF32) with hw | hw
  · by_cases hc : serialDiff (s.frames 0).frame_id 0 < HALF32
    · rcases (h hw hc).1 with he | he
      · rw [he]; decide
      · have := List.mem_of_mem_drop he
        exact List.mem_range.mp this
    · -- fall back to a direct bound on the fold
      clear h
      have : ∀ (l : List Nat) (c : Nat), c < FPV_MAX_INFLIGHT_FRAMES →
          (∀ i ∈ l, i < FPV_MAX_INFLIGHT_FRAMES) →
          l.foldl (fun o i =>
            if fpv_is_older (s.frames i).frame_id (s.frames o).frame_id
            then i else o) c < FPV_MAX_INFLIGHT_FRAMES := by
        intro l
        induction l with
        | nil => intro c hcl _; simpa using hcl
        | cons i l ih =>
          intro c hcl hall
          simp only [List.foldl_cons]
          by_cases hcmp : fpv_is_older (s.frames i).frame_id
              (s.frames c).frame_id = true
          · rw [if_pos hcmp]
            exact ih i (hall i (List.mem_cons_self i l))
              (fun j hj => hall j (List.mem_cons_of_mem i hj))
          · rw [if_neg hcmp]
            exact ih c hcl (fun j hj => hall j (List.mem_cons_of_mem i hj))
      exact this _ 0 (by decide)
        (fun i hi => List.mem_range.mp (List.mem_of_mem_drop hi))
  · clear h
    have : ∀ (l : List Nat) (c : Nat), c < FPV_MAX_INFLIGHT_FRAMES →
        (∀ i ∈ l, i < FPV_MAX_INFLIGHT_FRAMES) →
        l.foldl (fun o i =>
          if fpv_is_older (s.frames i).frame_id (s.frames o).frame_id
          then i else o) c < FPV_MAX_INFLIGHT_FRAMES := by
      intro l
      induction l with
      | nil => intro c hcl _; simpa using hcl
      | cons i l ih =>
        intro c hcl hall
        simp only [List.foldl_cons]
        by_cases hcmp : fpv_is_older (s.frames i).frame_id
            (s.frames c).frame_id = true
        · rw [if_pos hcmp]
          exact ih i (hall i (List.mem_cons_self i l))
            (fun j hj => hall j (List.mem_cons_of_mem i hj))
        · rw [if_neg hcmp]
          exact ih c hcl (fun j hj => hall j (List.mem_cons_of_mem i hj))
    exact this _ 0 (by decide)
      (fun i hi => List.mem_range.mp (List.mem_of_mem_drop hi))

/-- C6 as stated is false: feeding fragments of 13 distinct incomplete frame
ids (100..112, each fragment 0 of 2) leaves frames_dropped_overflow at 0 and
evicts nothing through the overflow path; the newest-advance supersede rule
frees the slots first. -/
theorem C6_counterexample :
    (evIds ((List.range 13).map (fun k => Ev.add (frag0of2 (100 + k)) k))).Nodup ∧
    (evIds ((List.range 13).map (fun k => Ev.add (frag0of2 (100 + k)) k))).length =
      FPV_MAX_INFLIGHT_FRAMES + 1 ∧
    (runTrace ((List.range 13).map (fun k => Ev.add (frag0of2 (100 + k)) k))).stats.frames_completed
      = 0 ∧
    (runTrace ((List.range 13).map (fun k => Ev.add (frag0of2 (100 + k)) k))).stats.frames_dropped_overflow
      = 0 := by
  decide

/-- C6 (amended): the overflow eviction in find_or_create_slot happens
exactly when a fragment needs a slot while all 12 slots are active and none
matches its frame id; then the slot chosen by the left-to-right fpv_is_older
scan (oldestIdx) is evicted and frames_dropped_overflow is incremented by
one, and when all active frame ids lie in a common serial half-plane the
evicted slot is one no other active slot is older than.  Feeding more than
MAX_INFLIGHT_FRAMES distinct incomplete frame ids does not by itself trigger
this (see the counterexample): superseding frees slots first. -/
theorem C6_overflow_eviction (s : AsmState) (fid base : Nat)
    (hall : ∀ i < FPV_MAX_INFLIGHT_FRAMES, (s.frames i).active = true)
    (hnone : ∀ i < FPV_MAX_INFLIGHT_FRAMES, (s.frames i).frame_id ≠ fid)
    (hwin : ∀ i < FPV_MAX_INFLIGHT_FRAMES,
      serialDiff (s.frames i).frame_id base < HALF32) :
    (findOrCreateSlot s fid).1 = oldestIdx s ∧
    (findOrCreateSlot s fid).2.stats.frames_dropped_overflow =
      s.stats.frames_dropped_overflow + 1 ∧
    ((findOrCreateSlot s fid).2.frames (oldestIdx s)).active = false ∧
    (∀ i < FPV_MAX_INFLIGHT_FRAMES,
      fpv_is_older (s.frames i).frame_id
        (s.frames (oldestIdx s)).frame_id = false) := by
  have hfa : findActiveIdx s fid = none := by
    apply List.find?_eq_none.mpr
    intro i hi
    have h1 := hnone i (List.mem_range.mp hi)
    simp [h1]
  have hfe : findEmptyIdx s = none := by
    apply List.find?_eq_none.mpr
    intro i hi
    have h1 := hall i (List.mem_range.mp hi)
    simp [h1]
  have holt := oldestIdx_lt s
  have hs' : findOrCreateSlot s fid =
      (oldestIdx s,
        { s with
            frames := setFrame s.frames (oldestIdx s)
              ({ s.frames (oldestIdx s) with active := false })
            stats := { s.stats with frames_dropped_overflow :=
                s.stats.frames_dropped_overflow + 1 } }) := by
    simp only [findOrCreateSlot]
    rw [hfa, hfe]
    rw [if_pos (hall (oldestIdx s) holt)]
  have hmin : ∀ i < FPV_MAX_INFLIGHT_FRAMES,
      fpv_is_older (s.frames i).frame_id
        (s.frames (oldestIdx s)).frame_id = false := by
    have hwin' : ∀ i ∈ (List.range FPV_MAX_INFLIGHT_FRAMES).drop 1,
        serialDiff (s.frames i).frame_id base < HALF32 :=
      fun i hi => hwin i (List.mem_range.mp (List.mem_of_mem_drop hi))
    have h0 : serialDiff (s.frames 0).frame_id base < HALF32 :=
      hwin 0 (by decide)
    have hspec := scan_oldest_spec (fun i => (s.frames i).frame_id) base
      ((List.range FPV_MAX_INFLIGHT_FRAMES).drop 1) 0 hwin' h0
    have hspec2 : (oldestIdx s = 0 ∨
        oldestIdx s ∈ (List.range FPV_MAX_INFLIGHT_FRAMES).drop 1) ∧
        serialDiff (s.frames (oldestIdx s)).frame_id base ≤
          serialDiff (s.frames 0).frame_id base ∧
        (∀ i ∈ (List.range FPV_MAX_INFLIGHT_FRAMES).drop 1,
          serialDiff (s.frames (oldestIdx s)).frame_id base ≤
            serialDiff (s.frames i).frame_id base) := hspec
    intro i hi
    have hwo : serialDiff (s.frames (oldestIdx s)).frame_id base < HALF32 :=
      hwin (oldestIdx s) holt
    have hle : serialDiff (s.frames (oldestIdx s)).frame_id base ≤
        serialDiff (s.frames i).frame_id base := by
      by_cases h0i : i = 0
      · subst h0i
        exact hspec2.2.1
      · have : i ∈ (List.range FPV_MAX_INFLIGHT_FRAMES).drop 1 := by
          have h12 : (List.range FPV_MAX_INFLIGHT_FRAMES).drop 1 =
              List.map (fun k => k + 1) (List.range 11) := by decide
          rw [h12]
          simp only [List.mem_map, List.mem_range]
          have hi12 : i < 12 := hi
          refine ⟨i - 1, ?_, ?_⟩ <;> omega
        exact hspec2.2.2 i this
    rw [← Bool.not_eq_true]
    intro hcmp
    have := (is_older_iff_pos_lt _ _ base (hwin i hi) hwo).mp hcmp
    omega
  rw [hs']
  refine ⟨rfl, rfl, ?_, hmin⟩
  simp [setFrame]

/-- A state with twelve active slots carrying frame ids 100..111, as left by
an antipodal-id trace shape; used to witness the overflow eviction. -/
def overflowState : AsmState :=
  { initState with
      frames := fun i =>
        if i < FPV_MAX_INFLIGHT_FRAMES then
          { Slot.zeroed with active := true, frame_id := 100 + i, frag_count := 2 }
        else Slot.zeroed
      have_newest := true
      newest_frame_id := 111 }

theorem C6_overflow_eviction_witness :
    ((∀ i < FPV_MAX_INFLIGHT_FRAMES, (overflowState.frames i).active = true) ∧
     (∀ i < FPV_MAX_INFLIGHT_FRAMES, (overflowState.frames i).frame_id ≠ 50) ∧
     (∀ i < FPV_MAX_INFLIGHT_FRAMES,
       serialDiff (overflowState.frames i).frame_id 100 < HALF32)) ∧
    ((findOrCreateSlot overflowState 50).1 = oldestIdx overflowState ∧
     (findOrCreateSlot overflowState 50).2.stats.frames_dropped_overflow =
       overflowState.stats.frames_dropped_overflow + 1 ∧
     ((findOrCreateSlot overflowState 50).2.frames (oldestIdx overflowState)).active
       = false ∧
     (∀ i < FPV_MAX_INFLIGHT_FRAMES,
       fpv_is_older (overflowState.frames i).frame_id
         (overflowState.frames (oldestIdx overflowState)).frame_id = false)) :=
  ⟨⟨by decide, by decide, by decide⟩,
    C6_overflow_eviction overflowState 50 100 (by decide) (by decide)
      (by decide)⟩

/-! ## Single-frame assembly (claim C1) -/

/-- Sum of payload lengths of a list of (fragment, arrival-time) pairs. -/
def sumLen (pfx : List (Frag × Nat)) : Nat :=
  (pfx.map (fun q => q.1.payload_len)).sum

/-- What slot 0 looks like after the fragments `pfx` of a single frame
(frame id `fid`, timestamp `ts`, flags `flg`, `n` fragments) have been
stored into it, in arrival order. -/
def slotFacts (fid ts flg n : Nat) (pfx : List (Frag × Nat)) (fr : Slot) :
    Prop :=
  fr.active = true ∧ fr.frame_id = fid ∧ fr.ts_ms = ts ∧ fr.flags = flg ∧
  fr.frag_count = n ∧ fr.frags_received = pfx.length ∧
  fr.data_len = sumLen pfx ∧
  (∀ b, fr.received_mask.testBit b = true ↔
    b ∈ pfx.map (fun q => q.1.frag_index)) ∧
  (∀ q ∈ pfx, fr.frag_lengths q.1.frag_index = q.1.payload_len ∧
    fr.frag_offsets q.1.frag_index + q.1.payload_len ≤ fr.data_len ∧
    (∀ t, t < q.1.payload_len →
      fr.data (fr.frag_offsets q.1.frag_index + t) = q.1.payload t))

theorem slotFacts_store (fid ts flg n : Nat) (pfx : List (Frag × Nat))
    (fr : Slot) (p : Frag × Nat)
    (hsf : slotFacts fid ts flg n pfx fr)
    (hpfl : p.1.flags = flg)
    (hnotin : p.1.frag_index ∉ pfx.map (fun q => q.1.frag_index))
    (htot : sumLen pfx + p.1.payload_len ≤ U16) :
    slotFacts fid ts flg n (pfx ++ [p]) (storeIntoSlot fr p.1) := by
  obtain ⟨ha, hid, hts, hfl, hc, hrc, hdl, hmask, hext⟩ := hsf
  refine ⟨?_, ?_, ?_, ?_, ?_, ?_, ?_, ?_, ?_⟩
  · simpa [storeIntoSlot] using ha
  · simpa [storeIntoSlot] using hid
  · simpa [storeIntoSlot] using hts
  · simp only [storeIntoSlot, hfl, hpfl]
    exact Nat.or_self flg
  · simpa [storeIntoSlot] using hc
  · simp [storeIntoSlot, hrc]
  · simp [storeIntoSlot, hdl, sumLen, List.sum_append]
  · intro b
    simp only [storeIntoSlot, Nat.testBit_or, Nat.testBit_two_pow,
      List.map_append, List.map_cons, List.map_nil, List.mem_append,
      List.mem_cons, List.not_mem_nil, or_false, Bool.or_eq_true,
      decide_eq_true_eq]
    rw [hmask b]
    constructor
    · intro h
      rcases h with h | h
      · exact Or.inl h
      · exact Or.inr h.symm
    · intro h
      rcases h with h | h
      · exact Or.inl h
      · exact Or.inr h.symm
  · intro q hq
    rcases List.mem_append.mp hq with hq | hq
    · -- an old fragment: its region is untouched by the new write
      obtain ⟨hlq, hbq, hdq⟩ := hext q hq
      have hqi : q.1.frag_index ≠ p.1.frag_index := by
        intro he
        exact hnotin (he ▸ List.mem_map_of_mem (fun r => r.1.frag_index) hq)
      refine ⟨?_, ?_, ?_⟩
      · simp only [storeIntoSlot]
        rw [if_neg hqi]
        exact hlq
      · simp only [storeIntoSlot]
        rw [if_neg hqi]
        omega
      · intro t ht
        simp only [storeIntoSlot]
        rw [if_neg hqi]
        have hin : ¬(fr.data_len ≤ fr.frag_offsets q.1.frag_index + t ∧
            fr.frag_offsets q.1.frag_index + t <
              fr.data_len + p.1.payload_len) := by
          omega
        rw [if_neg (by simpa using hin)]
        exact hdq t ht
    · -- the new fragment
      rcases List.mem_singleton.mp hq with rfl
      refine ⟨?_, ?_, ?_⟩
      · simp [storeIntoSlot]
      · simp only [storeIntoSlot, if_true]
        have := Nat.mod_le fr.data_len U16
        omega
      · intro t ht
        simp only [storeIntoSlot, if_true]
        have hlt : fr.data_len < U16 := by
          rw [hdl]
          omega
        rw [Nat.mod_eq_of_lt hlt]
        have h1 : fr.data_len ≤ fr.data_len + t := Nat.le_add_right _ _
        have h2 : fr.data_len + t < fr.data_len + q.1.payload_len := by
          omega
        simp [h1, h2, Nat.add_sub_cancel_left]

/-- Concatenation, in index order, of the byte segments of lengths `L i`
with contents `P i`. -/
def segJoin (L : Nat → Nat) (P : Nat → Nat → Nat) (m : Nat) : List Nat :=
  ((List.range m).map (fun i => (List.range (L i)).map (P i))).flatten

theorem segJoin_succ (L : Nat → Nat) (P : Nat → Nat → Nat) (m : Nat) :
    segJoin L P (m + 1) = segJoin L P m ++ (List.range (L m)).map (P m) := by
  simp [segJoin, List.range_succ]

theorem getD_map_range (g : Nat → Nat) (k t : Nat) (ht : t < k) :
    ((List.range k).map g).getD t 0 = g t := by
  rw [List.getD_eq_getElem _ _ (by simpa using ht)]
  simp

/-- The concatenation loop of complete_frame, over the first `m` fragment
indices, produces exactly the index-ordered segment concatenation. -/
theorem completeLoop_fold (fr : Slot) (init : Nat → Nat) (L : Nat → Nat)
    (P : Nat → Nat → Nat) :
    ∀ m : Nat,
      (∀ i < m, fr.received_mask.testBit i = true) →
      (∀ i < m, fr.frag_lengths i = L i) →
      (∀ i < m, ∀ t < L i, fr.data (fr.frag_offsets i + t) = P i t) →
      ((List.range m).foldl (completeStep fr) (init, 0)).2 =
        (segJoin L P m).length ∧
      (∀ j < (segJoin L P m).length,
        ((List.range m).foldl (completeStep fr) (init, 0)).1 j =
          (segJoin L P m).getD j 0) := by
  intro m
  induction m with
  | zero =>
    intro _ _ _
    simp [segJoin]
  | succ m ih =>
    intro hmask hlen hdata
    have hm := ih (fun i hi => hmask i (by omega))
      (fun i hi => hlen i (by omega)) (fun i hi => hdata i (by omega))
    rw [List.range_succ, List.foldl_append]
    simp only [List.foldl_cons, List.foldl_nil]
    have hstep : completeStep fr
        ((List.range m).foldl (completeStep fr) (init, 0)) m =
        (fun j =>
          if ((List.range m).foldl (completeStep fr) (init, 0)).2 ≤ j &&
              j < ((List.range m).foldl (completeStep fr) (init, 0)).2 +
                fr.frag_lengths m then
            fr.data (fr.frag_offsets m +
              (j - ((List.range m).foldl (completeStep fr) (init, 0)).2))
          else ((List.range m).foldl (completeStep fr) (init, 0)).1 j,
          ((List.range m).foldl (completeStep fr) (init, 0)).2 +
            fr.frag_lengths m) := by
      simp only [completeStep]
      rw [if_pos (hmask m (by omega))]
    rw [hstep, segJoin_succ]
    simp only []
    have hLm := hlen m (by omega)
    constructor
    · simp only [List.length_append, List.length_map, List.length_range]
      rw [hm.1, hLm]
    · intro j hj
      simp only [List.length_append, List.length_map, List.length_range] at hj
      by_cases hlow : j < (segJoin L P m).length
      · have hc : ¬(((List.range m).foldl (completeStep fr) (init, 0)).2 ≤ j) := by
          rw [hm.1]
          omega
        rw [if_neg (by simp [hc])]
        rw [List.getD_append _ _ _ _ hlow]
        exact hm.2 j hlow
      · have hge : (segJoin L P m).length ≤ j := by omega
        have h1 : ((List.range m).foldl (completeStep fr) (init, 0)).2 ≤ j := by
          rw [hm.1]
          exact hge
        have h2 : j < ((List.range m).foldl (completeStep fr) (init, 0)).2 +
            fr.frag_lengths m := by
          rw [hm.1, hLm]
          omega
        rw [if_pos (by simp [h1, h2])]
        rw [List.getD_append_right _ _ _ _ hge]
        rw [getD_map_range _ _ _ (by omega)]
        rw [hm.1]
        exact hdata m (by omega) (j - (segJoin L P m).length) (by omega)

theorem serialDiff_self (a : Nat) : serialDiff a a = 0 := by
  simp only [serialDiff, U32]
  omega

theorem is_older_self (a : Nat) : fpv_is_older a a = false := by
  simp [fpv_is_older, serialDiff_self, HALF32]

theorem is_newer_self (a : Nat) : fpv_is_newer a a = false := by
  simp [fpv_is_newer, serialDiff_self]

/-- State shape while assembling the fragments `pfx` of a single frame in
slot 0. -/
def C1State (fid ts flg n : Nat) (pfx : List (Frag × Nat)) (s : AsmState) :
    Prop :=
  slotFacts fid ts flg n pfx (s.frames 0) ∧
  (∀ j, j ≠ 0 → (s.frames j).active = false) ∧
  s.have_newest = true ∧ s.newest_frame_id = fid ∧
  s.stats.frames_completed = 0

/-- State shape after the frame completes: latest_au carries the frame's
header fields, and its bytes and length are those computed by completeLoop
from a slot satisfying slotFacts for the full fragment list. -/
def C1Final (fid ts flg n : Nat) (full : List (Frag × Nat)) (s' : AsmState) :
    Prop :=
  s'.has_latest_au = true ∧ s'.latest_frame_id = fid ∧
  s'.latest_ts_ms = ts ∧ s'.latest_is_keyframe = flg.testBit 0 ∧
  s'.latest_has_spspps = flg.testBit 1 ∧
  ∃ fr init, slotFacts fid ts flg n full fr ∧
    s'.latest_data = (completeLoop fr init).1 ∧
    s'.latest_len = (completeLoop fr init).2

theorem range12_head : List.range FPV_MAX_INFLIGHT_FRAMES =
    0 :: (List.range 11).map (fun k => k + 1) := by
  decide

/-- Feeding a fragment of the frame being assembled reduces to the store
phase on slot 0. -/
theorem C1_entry (fid ts flg n : Nat) (pfx : List (Frag × Nat))
    (s : AsmState) (p : Frag × Nat)
    (hpid : p.1.frame_id = fid) (hc : p.1.frag_count = n)
    (hn64 : n ≤ FPV_MAX_FRAGMENTS) (hidx : p.1.frag_index < n)
    (h : C1State fid ts flg n pfx s) :
    addFragment s p.1 p.2 = storeFragment (bumpReceived s) 0 p.1 p.2 ∧
    C1State fid ts flg n pfx (bumpReceived s) := by
  obtain ⟨hsf, hothers, hhn, hnewest, hcomp⟩ := h
  have hact0 : (s.frames 0).active = true := hsf.1
  have hid0 : (s.frames 0).frame_id = fid := hsf.2.1
  have hstale : staleDrop (bumpReceived s) p.1 = false := by
    simp [staleDrop, bumpReceived, hnewest, hpid, is_older_self]
  have hadv : advanceNewest (bumpReceived s) p.1 = bumpReceived s := by
    simp only [advanceNewest]
    rw [if_neg]
    simp [bumpReceived, hhn, hnewest, hpid, is_newer_self]
  have hfa : findActiveIdx (bumpReceived s) p.1.frame_id = some 0 := by
    unfold findActiveIdx
    rw [range12_head]
    apply List.find?_cons_of_pos
    simp [bumpReceived, hact0, hid0, hpid]
  have hpr : findOrCreateSlot (bumpReceived s) p.1.frame_id =
      (0, bumpReceived s) := by
    simp only [findOrCreateSlot]
    rw [hfa]
  have hinit : initSlotIfNeeded (bumpReceived s) 0 p.1 p.2 =
      bumpReceived s := by
    simp only [initSlotIfNeeded]
    rw [if_neg]
    simp [bumpReceived, hact0]
  constructor
  · simp only [addFragment]
    rw [if_neg (by simp [hstale]), hadv, if_neg (by rw [hc]; omega),
      if_neg (by rw [hc]; omega), hpr, hinit]
  · exact ⟨hsf, hothers, hhn, hnewest, hcomp⟩

/-- Feeding the first fragment from the initial state creates the slot and
reduces to the store phase on slot 0. -/
theorem C1_entry_init (fid ts flg n : Nat) (p : Frag × Nat)
    (hpid : p.1.frame_id = fid) (hpts : p.1.ts_ms = ts)
    (hpfl : p.1.flags = flg) (hc : p.1.frag_count = n)
    (hn64 : n ≤ FPV_MAX_FRAGMENTS) (hidx : p.1.frag_index < n) :
    ∃ s2 : AsmState,
      addFragment initState p.1 p.2 = storeFragment s2 0 p.1 p.2 ∧
      C1State fid ts flg n [] s2 := by
  have hstale : staleDrop (bumpReceived initState) p.1 = false := by
    simp [staleDrop, bumpReceived, initState]
  have hadv : advanceNewest (bumpReceived initState) p.1 =
      { bumpReceived initState with
          newest_frame_id := p.1.frame_id, have_newest := true } := by
    simp only [advanceNewest]
    rw [if_pos (by simp [bumpReceived, initState]),
      if_neg (by simp [bumpReceived, initState])]
  have hfa : findActiveIdx ({ bumpReceived initState with
      newest_frame_id := p.1.frame_id, have_newest := true }) p.1.frame_id
      = none := by
    apply List.find?_eq_none.mpr
    intro i _
    simp [bumpReceived, initState, Slot.zeroed]
  have hfe : findEmptyIdx ({ bumpReceived initState with
      newest_frame_id := p.1.frame_id, have_newest := true }) = some 0 := by
    unfold findEmptyIdx
    rw [range12_head]
    apply List.find?_cons_of_pos
    simp [bumpReceived, initState, Slot.zeroed]
  have hpr : findOrCreateSlot ({ bumpReceived initState with
      newest_frame_id := p.1.frame_id, have_newest := true }) p.1.frame_id =
      (0, { bumpReceived initState with
        newest_frame_id := p.1.frame_id, have_newest := true }) := by
    simp only [findOrCreateSlot]
    rw [hfa, hfe]
  refine ⟨{ bumpReceived initState with
      newest_frame_id := p.1.frame_id, have_newest := true,
      frames := setFrame (bumpReceived initState).frames 0
        (freshSlot p.1 p.2) }, ?_, ?_⟩
  · simp only [addFragment]
    rw [if_neg (by simp [hstale]), hadv, if_neg (by rw [hc]; omega),
      if_neg (by rw [hc]; omega), hpr]
    simp only [initSlotIfNeeded]
    rw [if_pos (by simp [bumpReceived, initState, Slot.zeroed])]
  · refine ⟨?_, ?_, rfl, hpid, rfl⟩
    · refine ⟨?_, ?_, ?_, ?_, ?_, ?_, ?_, ?_, ?_⟩ <;>
        simp [setFrame, freshSlot, Slot.zeroed, hpid, hpts, hpfl, hc,
          sumLen, Nat.zero_testBit]
    · intro j hj
      simp [setFrame, hj, bumpReceived, initState, Slot.zeroed]

/-- The store phase on slot 0: a non-final fragment extends the slot facts;
the final fragment completes the frame. -/
theorem C1_store (fid ts flg n : Nat) (pfx : List (Frag × Nat))
    (s : AsmState) (p : Frag × Nat)
    (h : C1State fid ts flg n pfx s)
    (hpfl : p.1.flags = flg)
    (hnotin : p.1.frag_index ∉ pfx.map (fun q => q.1.frag_index))
    (htot : sumLen pfx + p.1.payload_len ≤ U16) :
    (pfx.length + 1 < n →
      C1State fid ts flg n (pfx ++ [p]) (storeFragment s 0 p.1 p.2)) ∧
    (pfx.length + 1 = n →
      C1Final fid ts flg n (pfx ++ [p]) (storeFragment s 0 p.1 p.2)) := by
  obtain ⟨hsf, hothers, hhn, hnewest, hcomp⟩ := h
  have hdup : (s.frames 0).received_mask.testBit p.1.frag_index = false := by
    rw [← Bool.not_eq_true]
    intro hb
    exact hnotin ((hsf.2.2.2.2.2.2.2.1 p.1.frag_index).mp hb)
  have hbig : ¬ FPV_MAX_AU_SIZE < (s.frames 0).data_len + p.1.payload_len := by
    have := hsf.2.2.2.2.2.2.1
    simp only [FPV_MAX_AU_SIZE, U16] at *
    omega
  have hsf' : slotFacts fid ts flg n (pfx ++ [p])
      (storeIntoSlot (s.frames 0) p.1) :=
    slotFacts_store fid ts flg n pfx (s.frames 0) p hsf hpfl hnotin htot
  have hrecv : (storeIntoSlot (s.frames 0) p.1).frags_received =
      pfx.length + 1 := by
    simp [storeIntoSlot, hsf.2.2.2.2.2.1]
  have hcnt : (storeIntoSlot (s.frames 0) p.1).frag_count = n := by
    simp [storeIntoSlot, hsf.2.2.2.2.1]
  constructor
  · intro hlt
    have hne : ¬ (storeIntoSlot (s.frames 0) p.1).frags_received =
        (storeIntoSlot (s.frames 0) p.1).frag_count := by
      rw [hrecv, hcnt]
      omega
    have hs' : storeFragment s 0 p.1 p.2 =
        ({ s with frames := setFrame s.frames 0 (storeIntoSlot (s.frames 0) p.1) }) := by
      simp only [storeFragment]
      rw [if_neg (by simp [hdup]), if_neg hbig, if_neg hne]
    rw [hs']
    refine ⟨?_, ?_, hhn, hnewest, hcomp⟩
    · simpa [setFrame] using hsf'
    · intro j hj
      simpa [setFrame, hj] using hothers j hj
  · intro heq
    have he : (storeIntoSlot (s.frames 0) p.1).frags_received =
        (storeIntoSlot (s.frames 0) p.1).frag_count := by
      rw [hrecv, hcnt, heq]
    have hs' : storeFragment s 0 p.1 p.2 =
        completeFrame ({ s with frames := setFrame s.frames 0 (storeIntoSlot (s.frames 0) p.1) }) 0 p.2 := by
      simp only [storeFragment]
      rw [if_neg (by simp [hdup]), if_neg hbig, if_pos he]
    rw [hs']
    have hfr0 : ({ s with frames := setFrame s.frames 0 (storeIntoSlot (s.frames 0) p.1) } : AsmState).frames 0 =
        storeIntoSlot (s.frames 0) p.1 := by
      simp [setFrame]
    refine ⟨?_, ?_, ?_, ?_, ?_,
      ⟨storeIntoSlot (s.frames 0) p.1, s.latest_data, hsf', ?_, ?_⟩⟩
    · simp [completeFrame]
    · simp only [completeFrame, hfr0]
      exact hsf'.2.1
    · simp only [completeFrame, hfr0]
      exact hsf'.2.2.1
    · simp [completeFrame, setFrame]
      rw [hsf'.2.2.2.1]
    · simp [completeFrame, setFrame]
      rw [hsf'.2.2.2.1]
    · simp [completeFrame, setFrame]
    · simp [completeFrame, setFrame]

/-- The fragment of the list carrying a given fragment index (the first
one, if any; index lists we use are duplicate-free). -/
def fragAt (frs : List (Frag × Nat)) (i : Nat) : Frag :=
  match frs.find? (fun q => q.1.frag_index == i) with
  | some q => q.1
  | none => ⟨0, 0, 0, 0, 0, 0, fun _ => 0⟩

/-- Byte-concatenation of the frame's fragment payloads in fragment-index
order. -/
def idxJoin (frs : List (Frag × Nat)) (n : Nat) : List Nat :=
  segJoin (fun i => (fragAt frs i).payload_len)
    (fun i t => (fragAt frs i).payload t) n

theorem fragAt_mem (frs : List (Frag × Nat)) (i : Nat)
    (h : i ∈ frs.map (fun q => q.1.frag_index)) :
    ∃ q ∈ frs, fragAt frs i = q.1 ∧ q.1.frag_index = i := by
  obtain ⟨q, hq, hqi⟩ := List.mem_map.mp h
  have hsome : (frs.find? (fun r => r.1.frag_index == i)).isSome := by
    rw [List.find?_isSome]
    exact ⟨q, hq, by simp [hqi]⟩
  obtain ⟨q0, hq0⟩ := Option.isSome_iff_exists.mp hsome
  refine ⟨q0, List.mem_of_find?_eq_some hq0, ?_, ?_⟩
  · simp [fragAt, hq0]
  · simpa using List.find?_some hq0

theorem fragAt_eq (frs : List (Frag × Nat))
    (hnd : (frs.map (fun q => q.1.frag_index)).Nodup)
    (q : Frag × Nat) (hq : q ∈ frs) : fragAt frs q.1.frag_index = q.1 := by
  obtain ⟨q0, hq0m, hfa, hq0i⟩ :=
    fragAt_mem frs q.1.frag_index
      (List.mem_map_of_mem (fun r => r.1.frag_index) hq)
  have he : q0 = q := List.inj_on_of_nodup_map hnd hq0m hq hq0i
  rw [hfa, he]

theorem idx_perm (frs : List (Frag × Nat)) (n : Nat)
    (hlen : frs.length = n)
    (hnd : (frs.map (fun q => q.1.frag_index)).Nodup)
    (hlt : ∀ q ∈ frs, q.1.frag_index < n) :
    (frs.map (fun q => q.1.frag_index)).Perm (List.range n) := by
  apply List.Subperm.perm_of_length_le
  · refine List.subperm_of_subset hnd ?_
    intro a ha
    obtain ⟨q, hq, hqa⟩ := List.mem_map.mp ha
    exact List.mem_range.mpr (hqa ▸ hlt q hq)
  · simp [hlen]

theorem segJoin_length (L : Nat → Nat) (P : Nat → Nat → Nat) (m : Nat) :
    (segJoin L P m).length = ((List.range m).map L).sum := by
  simp only [segJoin, List.length_flatten, List.map_map]
  congr 1
  apply List.map_congr_left
  intro a _
  simp

theorem sumLen_append (a b : List (Frag × Nat)) :
    sumLen (a ++ b) = sumLen a + sumLen b := by
  simp [sumLen]

/-- Feeding the remaining fragments of the frame, one add_fragment call
each, drives the state from the partial C1State to the completed
C1Final. -/
theorem C1_feed (fid ts flg n : Nat) :
    ∀ (rest pfx : List (Frag × Nat)) (s : AsmState),
      rest ≠ [] →
      C1State fid ts flg n pfx s →
      (pfx ++ rest).length = n →
      ((pfx ++ rest).map (fun q => q.1.frag_index)).Nodup →
      (∀ q ∈ rest, q.1.frame_id = fid ∧ q.1.ts_ms = ts ∧ q.1.flags = flg ∧
        q.1.frag_count = n ∧ q.1.frag_index < n) →
      n ≤ FPV_MAX_FRAGMENTS →
      sumLen (pfx ++ rest) ≤ U16 →
      C1Final fid ts flg n (pfx ++ rest)
        ((rest.map (fun q => Ev.add q.1 q.2)).foldl stepEv s) := by
  intro rest
  induction rest with
  | nil => intro pfx s hne; exact absurd rfl hne
  | cons p r ih =>
    intro pfx s _ hC1 hlen hnd hall hn64 htot
    obtain ⟨hpid, hpts, hpfl, hpc, hpi⟩ := hall p (List.mem_cons_self p r)
    have hnotin : p.1.frag_index ∉ pfx.map (fun q => q.1.frag_index) := by
      intro hin
      have hnd' := hnd
      simp only [List.map_append, List.nodup_append] at hnd'
      exact hnd'.2.2 hin (by simp)
    have htot1 : sumLen pfx + p.1.payload_len ≤ U16 := by
      rw [sumLen_append] at htot
      simp only [sumLen, List.map_cons, List.sum_cons] at htot ⊢
      omega
    have hent := C1_entry fid ts flg n pfx s p hpid hpc hn64 hpi hC1
    have hstep : (((p :: r).map (fun q => Ev.add q.1 q.2)).foldl stepEv s) =
        ((r.map (fun q => Ev.add q.1 q.2)).foldl stepEv
          (storeFragment (bumpReceived s) 0 p.1 p.2)) := by
      simp only [List.map_cons, List.foldl_cons, stepEv]
      rw [hent.1]
    rw [hstep]
    have hst := C1_store fid ts flg n pfx (bumpReceived s) p hent.2 hpfl
      hnotin htot1
    cases r with
    | nil =>
      have hfin : pfx.length + 1 = n := by
        simpa using hlen
      simp only [List.map_nil, List.foldl_nil]
      exact hst.2 hfin
    | cons q r2 =>
      have hlt : pfx.length + 1 < n := by
        simp only [List.length_append, List.length_cons] at hlen
        omega
      have hre : pfx ++ p :: q :: r2 = (pfx ++ [p]) ++ q :: r2 := by
        simp
      rw [hre] at hlen hnd htot ⊢
      exact ih (pfx ++ [p]) (storeFragment (bumpReceived s) 0 p.1 p.2)
        (by simp) (hst.1 hlt) hlen hnd
        (fun q2 hq2 => hall q2 (List.mem_cons_of_mem p hq2)) hn64 htot

/-- C1 (corrected): assembler completeness for a single frame, with the
total-length bound tightened to 65536: feeding the fragments of one frame
(duplicate-free indices, each frag_index < frag_count = n ≤ 64, total
payload length at most 65536) in any order ends with latest_au carrying the
frame header fields, the summed length, and the byte-concatenation of the
payloads in fragment-index order. -/
theorem C1_assembler_completeness (fid ts flg n : Nat)
    (frs : List (Frag × Nat))
    (hne : frs ≠ [])
    (hlen : frs.length = n)
    (hnd : (frs.map (fun q => q.1.frag_index)).Nodup)
    (hall : ∀ q ∈ frs, q.1.frame_id = fid ∧ q.1.ts_ms = ts ∧
      q.1.flags = flg ∧ q.1.frag_count = n ∧ q.1.frag_index < n)
    (hn64 : n ≤ FPV_MAX_FRAGMENTS)
    (htot : sumLen frs ≤ U16) :
    (runTrace (frs.map (fun q => Ev.add q.1 q.2))).has_latest_au = true ∧
    (runTrace (frs.map (fun q => Ev.add q.1 q.2))).latest_frame_id = fid ∧
    (runTrace (frs.map (fun q => Ev.add q.1 q.2))).latest_ts_ms = ts ∧
    (runTrace (frs.map (fun q => Ev.add q.1 q.2))).latest_is_keyframe =
      flg.testBit 0 ∧
    (runTrace (frs.map (fun q => Ev.add q.1 q.2))).latest_has_spspps =
      flg.testBit 1 ∧
    (runTrace (frs.map (fun q => Ev.add q.1 q.2))).latest_len = sumLen frs ∧
    ∀ j, j < sumLen frs →
      (runTrace (frs.map (fun q => Ev.add q.1 q.2))).latest_data j =
        (idxJoin frs n).getD j 0 := by
  have hfin : C1Final fid ts flg n frs
      (runTrace (frs.map (fun q => Ev.add q.1 q.2))) := by
    cases frs with
    | nil => exact absurd rfl hne
    | cons p rest =>
      obtain ⟨hpid, hpts, hpfl, hpc, hpi⟩ := hall p (List.mem_cons_self p rest)
      obtain ⟨s2, hs2, hC1⟩ :=
        C1_entry_init fid ts flg n p hpid hpts hpfl hpc hn64 hpi
      have hstep : runTrace ((p :: rest).map (fun q => Ev.add q.1 q.2)) =
          ((rest.map (fun q => Ev.add q.1 q.2)).foldl stepEv
            (storeFragment s2 0 p.1 p.2)) := by
        simp only [runTrace, List.map_cons, List.foldl_cons, stepEv]
        rw [hs2]
      rw [hstep]
      have hnotin : p.1.frag_index ∉
          ([] : List (Frag × Nat)).map (fun q => q.1.frag_index) := by simp
      have htot1 : sumLen ([] : List (Frag × Nat)) + p.1.payload_len ≤ U16 := by
        simp only [sumLen, List.map_cons, List.sum_cons, List.map_nil,
          List.sum_nil] at htot ⊢
        omega
      have hst := C1_store fid ts flg n [] s2 p hC1 hpfl hnotin htot1
      cases rest with
      | nil =>
        have h1 : ([] : List (Frag × Nat)).length + 1 = n := by
          simpa using hlen
        exact hst.2 h1
      | cons q r2 =>
        have hlt : ([] : List (Frag × Nat)).length + 1 < n := by
          simp only [List.length_nil, List.length_cons] at hlen ⊢
          omega
        exact C1_feed fid ts flg n (q :: r2) [p]
          (storeFragment s2 0 p.1 p.2) (by simp) (hst.1 hlt) hlen hnd
          (fun q2 hq2 => hall q2 (List.mem_cons_of_mem p hq2)) hn64 htot
  obtain ⟨hau, hid, hts2, hkf, hsp, fr, init, hsf, hdata, hlen2⟩ := hfin
  have hmem : ∀ i, i < n → i ∈ frs.map (fun q => q.1.frag_index) := by
    intro i hi
    exact (idx_perm frs n hlen hnd
      (fun q hq => (hall q hq).2.2.2.2)).mem_iff.mpr (List.mem_range.mpr hi)
  have hcnt : fr.frag_count = n := hsf.2.2.2.2.1
  have hml : min fr.frag_count FPV_MAX_FRAGMENTS = n := by
    rw [hcnt]
    exact Nat.min_eq_left hn64
  have hMf : ∀ i, i < n → fr.received_mask.testBit i = true := by
    intro i hi
    exact (hsf.2.2.2.2.2.2.2.1 i).mpr (hmem i hi)
  have hLf : ∀ i, i < n →
      fr.frag_lengths i = (fragAt frs i).payload_len := by
    intro i hi
    obtain ⟨q, hq, hfa, hqi⟩ := fragAt_mem frs i (hmem i hi)
    rw [hfa, ← hqi]
    exact (hsf.2.2.2.2.2.2.2.2 q hq).1
  have hDf : ∀ i, i < n → ∀ t, t < (fragAt frs i).payload_len →
      fr.data (fr.frag_offsets i + t) = (fragAt frs i).payload t := by
    intro i hi t ht
    obtain ⟨q, hq, hfa, hqi⟩ := fragAt_mem frs i (hmem i hi)
    rw [hfa] at ht ⊢
    rw [← hqi]
    exact (hsf.2.2.2.2.2.2.2.2 q hq).2.2 t ht
  have hfold := completeLoop_fold fr init
    (fun i => (fragAt frs i).payload_len)
    (fun i t => (fragAt frs i).payload t) n hMf hLf hDf
  have hcl : completeLoop fr init =
      ((List.range n).foldl (completeStep fr) (init, 0)) := by
    simp only [completeLoop]
    rw [hml]
  have hsum : ((List.range n).map
      (fun i => (fragAt frs i).payload_len)).sum = sumLen frs := by
    have hperm := (idx_perm frs n hlen hnd
      (fun q hq => (hall q hq).2.2.2.2)).symm
    have h1 := (hperm.map (fun i => (fragAt frs i).payload_len)).sum_eq
    rw [h1, List.map_map]
    simp only [sumLen]
    congr 1
    apply List.map_congr_left
    intro q hq
    simp only [Function.comp]
    rw [fragAt_eq frs hnd q hq]
  refine ⟨hau, hid, hts2, hkf, hsp, ?_, ?_⟩
  · rw [hlen2, hcl, hfold.1, segJoin_length, hsum]
  · intro j hj
    have hjlen : j < (segJoin (fun i => (fragAt frs i).payload_len)
        (fun i t => (fragAt frs i).payload t) n).length := by
      rw [segJoin_length, hsum]
      exact hj
    rw [hdata, hcl, hfold.2 j hjlen]
    rfl

/-- Three fragments of one frame totalling 65537 bytes: 65535 + 1 + 1. -/
def cexFrags : List (Frag × Nat) :=
  [(⟨7, 0, 0, 3, 0, 65535, fun _ => 7⟩, 0),
   (⟨7, 0, 1, 3, 0, 1, fun _ => 8⟩, 0),
   (⟨7, 0, 2, 3, 0, 1, fun _ => 9⟩, 0)]

/-- C1 counterexample: a frame of 3 fragments with total length 65537
(within MAX_AU_SIZE = 131072, within 64 fragments, duplicate-free) is fed
in order; the claim says latest_au.data is the index-order concatenation,
whose byte 65536 is 9 (first byte of fragment 2), but the assembler
produces 7 there: frag_offsets is uint16_t, so fragment 2's offset 65536
is stored truncated to 0 and complete_frame re-reads fragment 0's bytes. -/
theorem C1_counterexample :
    sumLen cexFrags ≤ FPV_MAX_AU_SIZE ∧
    (cexFrags.map (fun q => q.1.frag_index)).Nodup ∧
    (∀ q ∈ cexFrags, q.1.frame_id = 7 ∧ q.1.ts_ms = 0 ∧ q.1.flags = 0 ∧
      q.1.frag_count = 3 ∧ q.1.frag_index < 3) ∧
    (runTrace (cexFrags.map (fun q => Ev.add q.1 q.2))).has_latest_au
      = true ∧
    (runTrace (cexFrags.map (fun q => Ev.add q.1 q.2))).latest_len
      = 65537 ∧
    (idxJoin cexFrags 3).getD 65536 0 = 9 ∧
    (runTrace (cexFrags.map (fun q => Ev.add q.1 q.2))).latest_data 65536
      = 7 := by
  have hL2 : (idxJoin cexFrags 2).length = 65536 := by
    simp only [idxJoin]
    rw [segJoin_length]
    decide
  have h9 : (idxJoin cexFrags 3).getD 65536 0 = 9 := by
    have hsplit : idxJoin cexFrags 3 = idxJoin cexFrags 2 ++
        (List.range ((fragAt cexFrags 2).payload_len)).map
          ((fragAt cexFrags 2).payload) := segJoin_succ _ _ 2
    have hle : (idxJoin cexFrags 2).length ≤ 65536 := by
      rw [hL2]
    rw [hsplit, List.getD_append_right _ _ _ _ hle, hL2]
    rw [getD_map_range _ _ _ (by decide)]
    decide
  exact ⟨by decide, by decide, by decide, by decide, by decide, h9,
    by decide⟩

/-- Fragments of spec scenario B: frame 100, two fragments arriving in
reverse index order. -/
def scenB : List (Frag × Nat) :=
  [(⟨100, 7, 1, 2, 2, 2, fun j => [187, 204].getD j 0⟩, 0),
   (⟨100, 7, 0, 2, 2, 1, fun _ => 170⟩, 0)]

theorem C1_assembler_completeness_witness :
    scenB ≠ [] ∧ scenB.length = 2 ∧
    (scenB.map (fun q => q.1.frag_index)).Nodup ∧
    (∀ q ∈ scenB, q.1.frame_id = 100 ∧ q.1.ts_ms = 7 ∧ q.1.flags = 2 ∧
      q.1.frag_count = 2 ∧ q.1.frag_index < 2) ∧
    2 ≤ FPV_MAX_FRAGMENTS ∧ sumLen scenB ≤ U16 ∧
    ((runTrace (scenB.map (fun q => Ev.add q.1 q.2))).has_latest_au
       = true ∧
     (runTrace (scenB.map (fun q => Ev.add q.1 q.2))).latest_frame_id
       = 100 ∧
     (runTrace (scenB.map (fun q => Ev.add q.1 q.2))).latest_ts_ms = 7 ∧
     (runTrace (scenB.map (fun q => Ev.add q.1 q.2))).latest_is_keyframe
       = Nat.testBit 2 0 ∧
     (runTrace (scenB.map (fun q => Ev.add q.1 q.2))).latest_has_spspps
       = Nat.testBit 2 1 ∧
     (runTrace (scenB.map (fun q => Ev.add q.1 q.2))).latest_len
       = sumLen scenB ∧
     ∀ j, j < sumLen scenB →
       (runTrace (scenB.map (fun q => Ev.add q.1 q.2))).latest_data j =
         (idxJoin scenB 2).getD j 0) :=
  ⟨by simp [scenB], by decide, by decide, by decide, by decide, by decide,
   C1_assembler_completeness 100 7 2 2 scenB (by simp [scenB]) (by decide)
     (by decide) (by decide) (by decide) (by decide)⟩

/- Wire codec (protocol.c on both receiver and sender). Bytes are Nats
below 256; buffers are byte lists. The C shifts and masks become division,
multiplication and remainder: (v >> k) & 0xFF is v / 2^k % 256, and
(hi << k) | lo with lo < 2^k is hi * 2^k + lo. -/

def FPV_VERSION : Nat := 1
def FPV_MSG_KEEPALIVE : Nat := 2
def FPV_MSG_IDR_REQUEST : Nat := 3
def FPV_MSG_PROBE : Nat := 4
def FPV_KEEPALIVE_HEADER_SIZE : Nat := 20
def FPV_IDR_REQUEST_HEADER_SIZE : Nat := 20
def FPV_PROBE_HEADER_SIZE : Nat := 28

def write_u16 (v : Nat) : List Nat := [v / 2 ^ 8 % 256, v % 256]

def write_u32 (v : Nat) : List Nat :=
  [v / 2 ^ 24 % 256, v / 2 ^ 16 % 256, v / 2 ^ 8 % 256, v % 256]

def write_u64 (v : Nat) : List Nat :=
  write_u32 (v / 2 ^ 32 % 2 ^ 32) ++ write_u32 (v % 2 ^ 32)

def read_u32 (b : List Nat) (i : Nat) : Nat :=
  b.getD i 0 * 2 ^ 24 + b.getD (i + 1) 0 * 2 ^ 16 +
    b.getD (i + 2) 0 * 2 ^ 8 + b.getD (i + 3) 0

def read_u64 (b : List Nat) (i : Nat) : Nat :=
  read_u32 b i * 2 ^ 32 + read_u32 b (i + 4)

structure Keepalive where
  session_id : Nat
  ts_ms : Nat
  seq : Nat
  echo_ts_ms : Nat

structure Probe where
  session_id : Nat
  ts_ms : Nat
  probe_seq : Nat
  nonce : Nat
  role : Nat
  flags : Nat

structure IdrRequest where
  session_id : Nat
  seq : Nat
  ts_ms : Nat
  reason : Nat

def fpv_marshal_keepalive (ka : Keepalive) : List Nat :=
  [FPV_MSG_KEEPALIVE, FPV_VERSION] ++ write_u16 FPV_KEEPALIVE_HEADER_SIZE ++
    write_u32 ka.session_id ++ write_u32 ka.ts_ms ++ write_u32 ka.seq ++
    write_u32 ka.echo_ts_ms

def fpv_parse_keepalive (b : List Nat) : Option Keepalive :=
  if b.length < FPV_KEEPALIVE_HEADER_SIZE then none
  else if b.getD 0 0 ≠ FPV_MSG_KEEPALIVE then none
  else if b.getD 1 0 ≠ FPV_VERSION then none
  else some ⟨read_u32 b 4, read_u32 b 8, read_u32 b 12, read_u32 b 16⟩

def fpv_marshal_probe (p : Probe) : List Nat :=
  [FPV_MSG_PROBE, FPV_VERSION] ++ write_u16 FPV_PROBE_HEADER_SIZE ++
    write_u32 p.session_id ++ write_u32 p.ts_ms ++ write_u32 p.probe_seq ++
    write_u64 p.nonce ++ [p.role % 256, p.flags % 256, 0, 0]

def fpv_parse_probe (b : List Nat) : Option Probe :=
  if b.length < FPV_PROBE_HEADER_SIZE then none
  else if b.getD 0 0 ≠ FPV_MSG_PROBE then none
  else if b.getD 1 0 ≠ FPV_VERSION then none
  else some ⟨read_u32 b 4, read_u32 b 8, read_u32 b 12, read_u64 b 16,
    b.getD 24 0, b.getD 25 0⟩

def fpv_marshal_idr_request (r : IdrRequest) : List Nat :=
  [FPV_MSG_IDR_REQUEST, FPV_VERSION] ++
    write_u16 FPV_IDR_REQUEST_HEADER_SIZE ++ write_u32 r.session_id ++
    write_u32 r.seq ++ write_u32 r.ts_ms ++ [r.reason % 256, 0, 0, 0]

def fpv_parse_idr_request (b : List Nat) : Option IdrRequest :=
  if b.length < FPV_IDR_REQUEST_HEADER_SIZE then none
  else if b.getD 0 0 ≠ FPV_MSG_IDR_REQUEST then none
  else if b.getD 1 0 ≠ FPV_VERSION then none
  else some ⟨read_u32 b 4, read_u32 b 8, read_u32 b 12, b.getD 16 0⟩

/-- Structural wire-format validity of a keepalive encoding: right length,
bytes, message type, version, big-endian header_len. -/
def keepaliveWF (b : List Nat) : Prop :=
  b.length = FPV_KEEPALIVE_HEADER_SIZE ∧
  (∀ i, i < b.length → b.getD i 0 < 256) ∧
  b.getD 0 0 = FPV_MSG_KEEPALIVE ∧ b.getD 1 0 = FPV_VERSION ∧
  b.getD 2 0 = 0 ∧ b.getD 3 0 = FPV_KEEPALIVE_HEADER_SIZE

/-- Structural wire-format validity of a probe encoding (reserved bytes 26
and 27 are written as zero by fpv_marshal_probe). -/
def probeWF (b : List Nat) : Prop :=
  b.length = FPV_PROBE_HEADER_SIZE ∧
  (∀ i, i < b.length → b.getD i 0 < 256) ∧
  b.getD 0 0 = FPV_MSG_PROBE ∧ b.getD 1 0 = FPV_VERSION ∧
  b.getD 2 0 = 0 ∧ b.getD 3 0 = FPV_PROBE_HEADER_SIZE ∧
  b.getD 26 0 = 0 ∧ b.getD 27 0 = 0

/-- Structural wire-format validity of an idr_request encoding (reserved
bytes 17-19 are written as zero by fpv_marshal_idr_request). -/
def idrRequestWF (b : List Nat) : Prop :=
  b.length = FPV_IDR_REQUEST_HEADER_SIZE ∧
  (∀ i, i < b.length → b.getD i 0 < 256) ∧
  b.getD 0 0 = FPV_MSG_IDR_REQUEST ∧ b.getD 1 0 = FPV_VERSION ∧
  b.getD 2 0 = 0 ∧ b.getD 3 0 = FPV_IDR_REQUEST_HEADER_SIZE ∧
  b.getD 17 0 = 0 ∧ b.getD 18 0 = 0 ∧ b.getD 19 0 = 0

theorem list_eq_getD_range (b : List Nat) (n : Nat) (h : b.length = n) :
    b = (List.range n).map (fun i => b.getD i 0) := by
  apply List.ext_getElem
  · simp [h]
  · intro i h1 h2
    simp only [List.getElem_map, List.getElem_range]
    rw [List.getD_eq_getElem b 0 h1]

theorem keepalive_roundtrip_fwd (m : Keepalive)
    (h : m.session_id < 2 ^ 32 ∧ m.ts_ms < 2 ^ 32 ∧ m.seq < 2 ^ 32 ∧
      m.echo_ts_ms < 2 ^ 32) :
    fpv_parse_keepalive (fpv_marshal_keepalive m) = some m := by
  obtain ⟨ms, mt, mq, me⟩ := m
  obtain ⟨h1, h2, h3, h4⟩ := h
  simp only at h1 h2 h3 h4
  simp only [fpv_parse_keepalive, fpv_marshal_keepalive, write_u16, write_u32,
    read_u32, FPV_VERSION, FPV_MSG_KEEPALIVE, FPV_KEEPALIVE_HEADER_SIZE,
    List.cons_append, List.nil_append]
  simp [Keepalive.mk.injEq]
  omega

theorem probe_roundtrip_fwd (m : Probe)
    (h : m.session_id < 2 ^ 32 ∧ m.ts_ms < 2 ^ 32 ∧ m.probe_seq < 2 ^ 32 ∧
      m.nonce < 2 ^ 64 ∧ m.role < 256 ∧ m.flags < 256) :
    fpv_parse_probe (fpv_marshal_probe m) = some m := by
  obtain ⟨ms, mt, mq, mn, mr, mf⟩ := m
  obtain ⟨h1, h2, h3, h4, h5, h6⟩ := h
  simp only at h1 h2 h3 h4 h5 h6
  simp only [fpv_parse_probe, fpv_marshal_probe, write_u16, write_u32,
    write_u64, read_u32, read_u64, FPV_VERSION, FPV_MSG_PROBE,
    FPV_PROBE_HEADER_SIZE, List.cons_append, List.nil_append]
  simp [Probe.mk.injEq]
  omega

theorem idr_roundtrip_fwd (m : IdrRequest)
    (h : m.session_id < 2 ^ 32 ∧ m.seq < 2 ^ 32 ∧ m.ts_ms < 2 ^ 32 ∧
      m.reason < 256) :
    fpv_parse_idr_request (fpv_marshal_idr_request m) = some m := by
  obtain ⟨ms, mq, mt, mr⟩ := m
  obtain ⟨h1, h2, h3, h4⟩ := h
  simp only at h1 h2 h3 h4
  simp only [fpv_parse_idr_request, fpv_marshal_idr_request, write_u16,
    write_u32, read_u32, FPV_VERSION, FPV_MSG_IDR_REQUEST,
    FPV_IDR_REQUEST_HEADER_SIZE, List.cons_append, List.nil_append]
  simp [IdrRequest.mk.injEq]
  omega

theorem keepalive_roundtrip_rev (b : List Nat) (hwf : keepaliveWF b) :
    ∃ m, fpv_parse_keepalive b = some m ∧ fpv_marshal_keepalive m = b := by
  obtain ⟨hlen, hbyte, hb0, hb1, hb2, hb3⟩ := hwf
  simp only [FPV_KEEPALIVE_HEADER_SIZE, FPV_MSG_KEEPALIVE, FPV_VERSION]
    at hlen hb0 hb1 hb2 hb3
  refine ⟨⟨read_u32 b 4, read_u32 b 8, read_u32 b 12, read_u32 b 16⟩, ?_, ?_⟩
  · simp only [fpv_parse_keepalive, FPV_KEEPALIVE_HEADER_SIZE,
      FPV_MSG_KEEPALIVE, FPV_VERSION]
    rw [if_neg (by omega), if_neg (fun hc => hc hb0),
      if_neg (fun hc => hc hb1)]
  · have hb : b = (List.range 20).map (fun i => b.getD i 0) :=
      list_eq_getD_range b 20 hlen
    have hr : List.range 20 =
        [0,1,2,3,4,5,6,7,8,9,10,11,12,13,14,15,16,17,18,19] := by decide
    rw [hr] at hb
    simp only [List.map_cons, List.map_nil] at hb
    have c4 := hbyte 4 (by omega)
    have c5 := hbyte 5 (by omega)
    have c6 := hbyte 6 (by omega)
    have c7 := hbyte 7 (by omega)
    have c8 := hbyte 8 (by omega)
    have c9 := hbyte 9 (by omega)
    have c10 := hbyte 10 (by omega)
    have c11 := hbyte 11 (by omega)
    have c12 := hbyte 12 (by omega)
    have c13 := hbyte 13 (by omega)
    have c14 := hbyte 14 (by omega)
    have c15 := hbyte 15 (by omega)
    have c16 := hbyte 16 (by omega)
    have c17 := hbyte 17 (by omega)
    have c18 := hbyte 18 (by omega)
    have c19 := hbyte 19 (by omega)
    conv_rhs => rw [hb]
    simp only [fpv_marshal_keepalive, write_u16, write_u32, read_u32,
      FPV_VERSION, FPV_MSG_KEEPALIVE, FPV_KEEPALIVE_HEADER_SIZE,
      List.cons_append, List.nil_append, List.cons.injEq, and_true]
    simp only [Nat.reduceAdd]
    omega

theorem probe_roundtrip_rev (b : List Nat) (hwf : probeWF b) :
    ∃ m, fpv_parse_probe b = some m ∧ fpv_marshal_probe m = b := by
  obtain ⟨hlen, hbyte, hb0, hb1, hb2, hb3, hb26, hb27⟩ := hwf
  simp only [FPV_PROBE_HEADER_SIZE, FPV_MSG_PROBE, FPV_VERSION]
    at hlen hb0 hb1 hb2 hb3 hb26 hb27
  refine ⟨⟨read_u32 b 4, read_u32 b 8, read_u32 b 12, read_u64 b 16,
    b.getD 24 0, b.getD 25 0⟩, ?_, ?_⟩
  · simp only [fpv_parse_probe, FPV_PROBE_HEADER_SIZE, FPV_MSG_PROBE,
      FPV_VERSION]
    rw [if_neg (by omega), if_neg (fun hc => hc hb0),
      if_neg (fun hc => hc hb1)]
  · have hb : b = (List.range 28).map (fun i => b.getD i 0) :=
      list_eq_getD_range b 28 hlen
    have hr : List.range 28 =
        [0,1,2,3,4,5,6,7,8,9,10,11,12,13,14,15,16,17,18,19,20,21,22,23,
         24,25,26,27] := by decide
    rw [hr] at hb
    simp only [List.map_cons, List.map_nil] at hb
    have c4 := hbyte 4 (by omega)
    have c5 := hbyte 5 (by omega)
    have c6 := hbyte 6 (by omega)
    have c7 := hbyte 7 (by omega)
    have c8 := hbyte 8 (by omega)
    have c9 := hbyte 9 (by omega)
    have c10 := hbyte 10 (by omega)
    have c11 := hbyte 11 (by omega)
    have c12 := hbyte 12 (by omega)
    have c13 := hbyte 13 (by omega)
    have c14 := hbyte 14 (by omega)
    have c15 := hbyte 15 (by omega)
    have c16 := hbyte 16 (by omega)
    have c17 := hbyte 17 (by omega)
    have c18 := hbyte 18 (by omega)
    have c19 := hbyte 19 (by omega)
    have c20 := hbyte 20 (by omega)
    have c21 := hbyte 21 (by omega)
    have c22 := hbyte 22 (by omega)
    have c23 := hbyte 23 (by omega)
    have c24 := hbyte 24 (by omega)
    have c25 := hbyte 25 (by omega)
    conv_rhs => rw [hb]
    simp only [fpv_marshal_probe, write_u16, write_u32, write_u64, read_u32,
      read_u64, FPV_VERSION, FPV_MSG_PROBE, FPV_PROBE_HEADER_SIZE,
      List.cons_append, List.nil_append, List.append_assoc,
      List.cons.injEq, and_true]
    simp only [Nat.reduceAdd]
    omega

theorem idr_roundtrip_rev (b : List Nat) (hwf : idrRequestWF b) :
    ∃ m, fpv_parse_idr_request b = some m ∧
      fpv_marshal_idr_request m = b := by
  obtain ⟨hlen, hbyte, hb0, hb1, hb2, hb3, hb17, hb18, hb19⟩ := hwf
  simp only [FPV_IDR_REQUEST_HEADER_SIZE, FPV_MSG_IDR_REQUEST, FPV_VERSION]
    at hlen hb0 hb1 hb2 hb3 hb17 hb18 hb19
  refine ⟨⟨read_u32 b 4, read_u32 b 8, read_u32 b 12, b.getD 16 0⟩, ?_, ?_⟩
  · simp only [fpv_parse_idr_request, FPV_IDR_REQUEST_HEADER_SIZE,
      FPV_MSG_IDR_REQUEST, FPV_VERSION]
    rw [if_neg (by omega), if_neg (fun hc => hc hb0),
      if_neg (fun hc => hc hb1)]
  · have hb : b = (List.range 20).map (fun i => b.getD i 0) :=
      list_eq_getD_range b 20 hlen
    have hr : List.range 20 =
        [0,1,2,3,4,5,6,7,8,9,10,11,12,13,14,15,16,17,18,19] := by decide
    rw [hr] at hb
    simp only [List.map_cons, List.map_nil] at hb
    have c4 := hbyte 4 (by omega)
    have c5 := hbyte 5 (by omega)
    have c6 := hbyte 6 (by omega)
    have c7 := hbyte 7 (by omega)
    have c8 := hbyte 8 (by omega)
    have c9 := hbyte 9 (by omega)
    have c10 := hbyte 10 (by omega)
    have c11 := hbyte 11 (by omega)
    have c12 := hbyte 12 (by omega)
    have c13 := hbyte 13 (by omega)
    have c14 := hbyte 14 (by omega)
    have c15 := hbyte 15 (by omega)
    have c16 := hbyte 16 (by omega)
    conv_rhs => rw [hb]
    simp only [fpv_marshal_idr_request, write_u16, write_u32, read_u32,
      FPV_VERSION, FPV_MSG_IDR_REQUEST, FPV_IDR_REQUEST_HEADER_SIZE,
      List.cons_append, List.nil_append, List.cons.injEq, and_true]
    simp only [Nat.reduceAdd]
    omega

/-- C2: wire-codec round trip. For every keepalive, probe and idr_request
message whose fields fit their wire widths, parsing the marshaled bytes
recovers the message exactly; and every structurally valid encoding (right
length, byte range, message type, version, big-endian header_len, zero
reserved bytes) is parsed successfully and re-marshals to the identical
byte string. -/
theorem C2_wire_codec_roundtrip :
    (∀ m : Keepalive, m.session_id < 2 ^ 32 ∧ m.ts_ms < 2 ^ 32 ∧
        m.seq < 2 ^ 32 ∧ m.echo_ts_ms < 2 ^ 32 →
      fpv_parse_keepalive (fpv_marshal_keepalive m) = some m) ∧
    (∀ m : Probe, m.session_id < 2 ^ 32 ∧ m.ts_ms < 2 ^ 32 ∧
        m.probe_seq < 2 ^ 32 ∧ m.nonce < 2 ^ 64 ∧ m.role < 256 ∧
        m.flags < 256 →
      fpv_parse_probe (fpv_marshal_probe m) = some m) ∧
    (∀ m : IdrRequest, m.session_id < 2 ^ 32 ∧ m.seq < 2 ^ 32 ∧
        m.ts_ms < 2 ^ 32 ∧ m.reason < 256 →
      fpv_parse_idr_request (fpv_marshal_idr_request m) = some m) ∧
    (∀ b, keepaliveWF b →
      ∃ m, fpv_parse_keepalive b = some m ∧ fpv_marshal_keepalive m = b) ∧
    (∀ b, probeWF b →
      ∃ m, fpv_parse_probe b = some m ∧ fpv_marshal_probe m = b) ∧
    (∀ b, idrRequestWF b →
      ∃ m, fpv_parse_idr_request b = some m ∧
        fpv_marshal_idr_request m = b) :=
  ⟨keepalive_roundtrip_fwd, probe_roundtrip_fwd, idr_roundtrip_fwd,
   keepalive_roundtrip_rev, probe_roundtrip_rev, idr_roundtrip_rev⟩

theorem C2_wire_codec_roundtrip_witness :
    ((1 : Nat) < 2 ^ 32 ∧ (2 : Nat) < 2 ^ 32 ∧ (3 : Nat) < 2 ^ 32 ∧
      (4 : Nat) < 2 ^ 32) ∧
    fpv_parse_keepalive (fpv_marshal_keepalive ⟨1, 2, 3, 4⟩) =
      some ⟨1, 2, 3, 4⟩ ∧
    probeWF (fpv_marshal_probe ⟨5, 6, 7, 8, 9, 10⟩) ∧
    (∃ m, fpv_parse_probe (fpv_marshal_probe ⟨5, 6, 7, 8, 9, 10⟩) =
        some m ∧
      fpv_marshal_probe m = fpv_marshal_probe ⟨5, 6, 7, 8, 9, 10⟩) :=
  ⟨by decide, C2_wire_codec_roundtrip.1 ⟨1, 2, 3, 4⟩ (by decide),
   by unfold probeWF; decide,
   C2_wire_codec_roundtrip.2.2.2.2.1 (fpv_marshal_probe ⟨5, 6, 7, 8, 9, 10⟩)
     (by unfold probeWF; decide)⟩

/- Sender fragmentation (fpv_sender_send_frame, sender.c lines 70-150,
default config max_payload_size = FPV_MAX_PAYLOAD_SIZE, peer set). The
emitted per-fragment header fields that depend on the fragmentation:
frag_index and frag_count are written through (uint16_t) casts, payload_len
is the chunk size min(remaining, max_payload). -/

structure SentFrag where
  frag_index : Nat
  frag_count : Nat
  payload_len : Nat

/-- The send loop: k remaining iterations, next index i, remaining bytes.
The chunk is remaining > max_payload ? max_payload : remaining. -/
def sendLoop (mp fc : Nat) : Nat → Nat → Nat → List SentFrag
  | 0, _, _ => []
  | k + 1, i, remaining =>
    ⟨i % 2 ^ 16, fc % 2 ^ 16, min remaining mp⟩ ::
      sendLoop mp fc k (i + 1) (remaining - min remaining mp)

/-- fpv_sender_send_frame on a frame of len bytes: frag_count is the
rounded-up quotient, forced to at least 1, rejected above 65535; there is
no clamp at FPV_MAX_FRAGMENTS. -/
def fpv_sender_send_frame (len : Nat) : Option (List SentFrag) :=
  let mp := FPV_MAX_PAYLOAD_SIZE - FPV_VIDEO_FRAGMENT_HEADER_SIZE
  let fc0 := (len + mp - 1) / mp
  let fc := if fc0 = 0 then 1 else fc0
  if 65535 < fc then none
  else some (sendLoop mp fc fc 0 len)

theorem sendLoop_spec (mp fc : Nat) :
    ∀ (k i remaining : Nat), remaining ≤ k * mp →
      (sendLoop mp fc k i remaining).length = k ∧
      ((sendLoop mp fc k i remaining).map
        (fun f => f.payload_len)).sum = remaining ∧
      ∀ f ∈ sendLoop mp fc k i remaining, f.frag_count = fc % 2 ^ 16 ∧
        f.payload_len ≤ mp ∧ ∃ j, j < k ∧ f.frag_index = (i + j) % 2 ^ 16 := by
  intro k
  induction k with
  | zero =>
    intro i r hr
    simp only [sendLoop, List.length_nil, List.map_nil, List.sum_nil,
      List.not_mem_nil, false_implies, implies_true, and_true, true_and]
    omega
  | succ k ih =>
    intro i r hr
    rw [Nat.succ_mul] at hr
    have hrec := ih (i + 1) (r - min r mp) (by omega)
    simp only [sendLoop, List.length_cons, List.map_cons, List.sum_cons,
      List.mem_cons]
    refine ⟨by rw [hrec.1], by rw [hrec.2.1]; omega, ?_⟩
    intro f hf
    rcases hf with hf | hf
    · subst hf
      refine ⟨rfl, ?_, 0, by omega, by simp⟩
      show min r mp ≤ mp
      omega
    · obtain ⟨h1, h2, j, hj, hj2⟩ := hrec.2.2 f hf
      refine ⟨h1, h2, j + 1, by omega, ?_⟩
      rw [hj2]
      congr 1
      omega

/-- The fragment count computed by fpv_sender_send_frame: the rounded-up
quotient of the frame length by max_payload = 1200 - 28 = 1172, forced to
at least 1. -/
def senderFragCount (len : Nat) : Nat :=
  if (len + 1172 - 1) / 1172 = 0 then 1 else (len + 1172 - 1) / 1172

/-- C8 (corrected): the fragment count is the rounded-up quotient of the
frame length by max_payload = FPV_MAX_PAYLOAD_SIZE - 28 = 1172, at least
1; frames are rejected only above 65535 fragments — there is no clamp at
MAX_FRAGMENTS = 64. Every emitted fragment has frag_index < frag_count and
a chunk of at most 1172 bytes, and the chunks partition the frame. -/
theorem C8_sender_fragmentation (len : Nat) (hlen : len < 2 ^ 31) :
    (fpv_sender_send_frame len = none ↔ 65535 < senderFragCount len) ∧
    ∀ frs, fpv_sender_send_frame len = some frs →
      frs.length = senderFragCount len ∧
      ((frs.map (fun f => f.payload_len)).sum = len) ∧
      ∀ f ∈ frs, f.frag_count = senderFragCount len ∧
        f.frag_index < f.frag_count ∧ f.payload_len ≤ 1172 := by
  set fc := senderFragCount len with hset
  have hmp : FPV_MAX_PAYLOAD_SIZE - FPV_VIDEO_FRAGMENT_HEADER_SIZE = 1172 :=
    by decide
  have hfc : (if (len + (FPV_MAX_PAYLOAD_SIZE -
      FPV_VIDEO_FRAGMENT_HEADER_SIZE) - 1) /
        (FPV_MAX_PAYLOAD_SIZE - FPV_VIDEO_FRAGMENT_HEADER_SIZE) = 0 then 1
      else (len + (FPV_MAX_PAYLOAD_SIZE - FPV_VIDEO_FRAGMENT_HEADER_SIZE) -
        1) / (FPV_MAX_PAYLOAD_SIZE - FPV_VIDEO_FRAGMENT_HEADER_SIZE)) =
      fc := by
    rw [hmp]
    rfl
  have hsf : fpv_sender_send_frame len =
      if 65535 < fc then none else some (sendLoop 1172 fc fc 0 len) := by
    simp only [fpv_sender_send_frame, hmp]
    rfl
  by_cases hbig : 65535 < fc
  · rw [hsf, if_pos hbig]
    refine ⟨by simp [hbig], ?_⟩
    intro frs h
    exact absurd h (by simp)
  · rw [hsf, if_neg hbig]
    refine ⟨by simp [hbig], ?_⟩
    intro frs h
    have hfrs : sendLoop 1172 fc fc 0 len = frs := by
      injection h
    have hle : len ≤ fc * 1172 := by
      have : fc = if (len + 1172 - 1) / 1172 = 0 then 1
          else (len + 1172 - 1) / 1172 := rfl
      rw [this]
      by_cases hz : (len + 1172 - 1) / 1172 = 0
      · rw [if_pos hz]
        omega
      · rw [if_neg hz]
        omega
    obtain ⟨hl, hs, hm⟩ := sendLoop_spec 1172 fc fc 0 len hle
    rw [hfrs] at hl hs hm
    refine ⟨hl, hs, ?_⟩
    intro f hf
    obtain ⟨h1, h2, j, hj, hj2⟩ := hm f hf
    have hcnt : f.frag_count = fc := by
      rw [h1]
      omega
    refine ⟨hcnt, ?_, h2⟩
    rw [hcnt, hj2]
    omega

/-- C8 counterexample: a 75009-byte frame yields frag_count = 65 > 64 =
MAX_FRAGMENTS; the fragments are emitted (not clamped, not rejected),
each carrying frag_count = 65, with indices up to 64. -/
theorem C8_counterexample :
    FPV_MAX_FRAGMENTS = 64 ∧
    (fpv_sender_send_frame 75009).isSome = true ∧
    ((fpv_sender_send_frame 75009).getD []).length = 65 ∧
    (∀ f ∈ (fpv_sender_send_frame 75009).getD [],
      f.frag_count = 65 ∧ f.frag_index < 65) ∧
    ((fpv_sender_send_frame 75009).getD []).map
      (fun f => f.frag_index) = List.range 65 := by
  decide

theorem C8_sender_fragmentation_witness :
    (3000 : Nat) < 2 ^ 31 ∧
    ((fpv_sender_send_frame 3000 = none ↔ 65535 < senderFragCount 3000) ∧
    ∀ frs, fpv_sender_send_frame 3000 = some frs →
      frs.length = senderFragCount 3000 ∧
      ((frs.map (fun f => f.payload_len)).sum = 3000) ∧
      ∀ f ∈ frs, f.frag_count = senderFragCount 3000 ∧
        f.frag_index < f.frag_count ∧ f.payload_len ≤ 1172) :=
  ⟨by decide, C8_sender_fragmentation 3000 (by decide)⟩

/- STUN response parsing (parse_stun_response, stun.c lines 28-97). The
TLV walk advances by 4 + ((attr_len + 3) & ~3); (x + 3) & ~3 is
(x + 3) / 4 * 4. -/

def STUN_MAGIC_COOKIE : Nat := 0x2112A442

def pad4 (n : Nat) : Nat := (n + 3) / 4 * 4

structure StunAttr where
  atype : Nat
  data : List Nat

/-- One serialized TLV attribute: 2-byte type, 2-byte length, value,
zero padding to a 4-byte boundary. -/
def attrBytes (a : StunAttr) : List Nat :=
  [a.atype / 256 % 256, a.atype % 256,
   a.data.length / 256 % 256, a.data.length % 256] ++
    a.data ++ List.replicate (pad4 a.data.length - a.data.length) 0

def attrsBytes (attrs : List StunAttr) : List Nat :=
  (attrs.map attrBytes).flatten

/-- A binding-success response: type 0x0101, length, magic cookie
0x2112A442, 12-byte transaction id, attributes. -/
def mkResponse (txn : List Nat) (attrs : List StunAttr) : List Nat :=
  [1, 1, (attrsBytes attrs).length / 256 % 256,
   (attrsBytes attrs).length % 256, 33, 18, 164, 66] ++
    txn ++ attrsBytes attrs

/-- How the parser decodes a single address attribute, if it accepts it:
XOR-MAPPED-ADDRESS (0x0020, IPv4) un-XORs port and address with the magic
cookie; MAPPED-ADDRESS (0x0001, IPv4) is taken literally. -/
def decodeAddrAttr (a : StunAttr) : Option (Nat × Nat) :=
  if a.atype = 32 ∧ 8 ≤ a.data.length ∧ a.data.getD 1 0 = 1 then
    some (Nat.xor (a.data.getD 2 0 * 256 + a.data.getD 3 0)
        (STUN_MAGIC_COOKIE / 2 ^ 16),
      Nat.xor (a.data.getD 4 0 * 2 ^ 24 + a.data.getD 5 0 * 2 ^ 16 +
        a.data.getD 6 0 * 2 ^ 8 + a.data.getD 7 0) STUN_MAGIC_COOKIE)
  else if a.atype = 1 ∧ 8 ≤ a.data.length ∧ a.data.getD 1 0 = 1 then
    some (a.data.getD 2 0 * 256 + a.data.getD 3 0,
      a.data.getD 4 0 * 2 ^ 24 + a.data.getD 5 0 * 2 ^ 16 +
        a.data.getD 6 0 * 2 ^ 8 + a.data.getD 7 0)
  else none

/-- The first attribute the walk accepts, in list order — no preference
between the two address attribute types. -/
def firstAddr : List StunAttr → Option (Nat × Nat)
  | [] => none
  | a :: rest =>
    match decodeAddrAttr a with
    | some r => some r
    | none => firstAddr rest

/-- The attribute walk of parse_stun_response (fuel-based; each iteration
consumes one unit and the walk never needs more than len/4 + 1 steps). -/
def stunAttrLoop (b : List Nat) (len msgLen : Nat) :
    Nat → Nat → Option (Nat × Nat)
  | 0, _ => none
  | fuel + 1, offset =>
    if offset + 4 ≤ 20 + msgLen ∧ offset + 4 ≤ len then
      if len < offset + 4 +
          (b.getD (offset + 2) 0 * 256 + b.getD (offset + 3) 0) then none
      else if (b.getD offset 0 * 256 + b.getD (offset + 1) 0) = 32 ∧
          8 ≤ (b.getD (offset + 2) 0 * 256 + b.getD (offset + 3) 0) ∧
          b.getD (offset + 5) 0 = 1 then
        some (Nat.xor (b.getD (offset + 6) 0 * 256 + b.getD (offset + 7) 0)
            (STUN_MAGIC_COOKIE / 2 ^ 16),
          Nat.xor (b.getD (offset + 8) 0 * 2 ^ 24 +
            b.getD (offset + 9) 0 * 2 ^ 16 +
            b.getD (offset + 10) 0 * 2 ^ 8 + b.getD (offset + 11) 0)
            STUN_MAGIC_COOKIE)
      else if (b.getD offset 0 * 256 + b.getD (offset + 1) 0) = 1 ∧
          8 ≤ (b.getD (offset + 2) 0 * 256 + b.getD (offset + 3) 0) ∧
          b.getD (offset + 5) 0 = 1 then
        some (b.getD (offset + 6) 0 * 256 + b.getD (offset + 7) 0,
          b.getD (offset + 8) 0 * 2 ^ 24 + b.getD (offset + 9) 0 * 2 ^ 16 +
            b.getD (offset + 10) 0 * 2 ^ 8 + b.getD (offset + 11) 0)
      else
        stunAttrLoop b len msgLen fuel
          (offset + 4 +
            pad4 (b.getD (offset + 2) 0 * 256 + b.getD (offset + 3) 0))
    else none

def parse_stun_response (b txn : List Nat) : Option (Nat × Nat) :=
  if b.length < 20 then none
  else if b.getD 0 0 * 256 + b.getD 1 0 ≠ 257 then none
  else if b.getD 4 0 * 2 ^ 24 + b.getD 5 0 * 2 ^ 16 + b.getD 6 0 * 2 ^ 8 +
      b.getD 7 0 ≠ STUN_MAGIC_COOKIE then none
  else if ¬ ((List.range 12).all
      (fun i => b.getD (8 + i) 0 == txn.getD i 0)) then none
  else stunAttrLoop b b.length (b.getD 2 0 * 256 + b.getD 3 0) b.length 20

theorem pad4_ge (n : Nat) : n ≤ pad4 n := by
  simp only [pad4]
  omega

theorem attrBytes_length (a : StunAttr) :
    (attrBytes a).length = 4 + pad4 a.data.length := by
  have := pad4_ge a.data.length
  simp [attrBytes]
  omega

theorem attrBytes_getD_data (a : StunAttr) (j : Nat)
    (hj : j < a.data.length) :
    (attrBytes a).getD (4 + j) 0 = a.data.getD j 0 := by
  simp only [attrBytes]
  rw [List.getD_append _ _ _ _ (by simp; omega)]
  rw [List.getD_append_right _ _ _ _ (by simp)]
  have h4 : 4 + j - ([a.atype / 256 % 256, a.atype % 256,
      a.data.length / 256 % 256, a.data.length % 256] : List Nat).length =
      j := by
    simp
  rw [h4]

theorem attrsBytes_cons (a : StunAttr) (rest : List StunAttr) :
    attrsBytes (a :: rest) = attrBytes a ++ attrsBytes rest := by
  simp [attrsBytes]

theorem attrsBytes_ge (attrs : List StunAttr) :
    4 * attrs.length ≤ (attrsBytes attrs).length := by
  induction attrs with
  | nil => simp [attrsBytes]
  | cons a rest ih =>
    rw [attrsBytes_cons, List.length_append, attrBytes_length]
    simp only [List.length_cons]
    omega

/-- The TLV walk over a well-formed serialized attribute list returns the
first address attribute in list order. -/
theorem stunAttrLoop_refines (b : List Nat) (msgLen : Nat)
    (hmsg : 20 + msgLen = b.length) :
    ∀ (attrs : List StunAttr) (offset fuel : Nat),
      (∀ a ∈ attrs, a.atype < 2 ^ 16 ∧ a.data.length ≤ 65535) →
      b.length = offset + (attrsBytes attrs).length →
      attrs.length ≤ fuel →
      (∀ k, b.getD (offset + k) 0 = (attrsBytes attrs).getD k 0) →
      stunAttrLoop b b.length msgLen fuel offset = firstAddr attrs := by
  intro attrs
  induction attrs with
  | nil =>
    intro offset fuel hw hlen hfuel hbytes
    have hoff : b.length = offset := by
      simpa [attrsBytes] using hlen
    cases fuel with
    | zero => simp [stunAttrLoop, firstAddr]
    | succ f =>
      simp only [stunAttrLoop, firstAddr]
      rw [if_neg (by omega)]
  | cons a rest ih =>
    intro offset fuel hw hlen hfuel hbytes
    obtain ⟨hat, hdl⟩ := hw a (List.mem_cons_self a rest)
    cases fuel with
    | zero => simp at hfuel
    | succ f =>
      have hal : (attrBytes a).length = 4 + pad4 a.data.length :=
        attrBytes_length a
      have hpge : a.data.length ≤ pad4 a.data.length := pad4_ge _
      rw [attrsBytes_cons] at hlen
      rw [List.length_append, hal] at hlen
      have hb0 : b.getD offset 0 = a.atype / 256 % 256 := by
        have h := hbytes 0
        rw [attrsBytes_cons] at h
        simpa [attrBytes] using h
      have hb1 : b.getD (offset + 1) 0 = a.atype % 256 := by
        have h := hbytes 1
        rw [attrsBytes_cons] at h
        simpa [attrBytes] using h
      have hb2 : b.getD (offset + 2) 0 = a.data.length / 256 % 256 := by
        have h := hbytes 2
        rw [attrsBytes_cons] at h
        simpa [attrBytes] using h
      have hb3 : b.getD (offset + 3) 0 = a.data.length % 256 := by
        have h := hbytes 3
        rw [attrsBytes_cons] at h
        simpa [attrBytes] using h
      have htv : b.getD offset 0 * 256 + b.getD (offset + 1) 0 = a.atype := by
        rw [hb0, hb1]
        omega
      have hlv : b.getD (offset + 2) 0 * 256 + b.getD (offset + 3) 0 =
          a.data.length := by
        rw [hb2, hb3]
        omega
      have hrec : stunAttrLoop b b.length msgLen f
          (offset + 4 + pad4 a.data.length) = firstAddr rest := by
        apply ih (offset + 4 + pad4 a.data.length) f
          (fun q hq => hw q (List.mem_cons_of_mem a hq))
          (by omega) (by simp only [List.length_cons] at hfuel; omega)
        intro k
        have h := hbytes (4 + pad4 a.data.length + k)
        rw [attrsBytes_cons] at h
        rw [List.getD_append_right _ _ _ _ (by rw [hal]; omega)] at h
        have he1 : offset + (4 + pad4 a.data.length + k) =
            offset + 4 + pad4 a.data.length + k := by omega
        have he2 : 4 + pad4 a.data.length + k - (attrBytes a).length = k := by
          rw [hal]
          omega
        rw [he1, he2] at h
        exact h
      simp only [stunAttrLoop]
      rw [if_pos (by omega)]
      rw [htv, hlv]
      rw [if_neg (by omega)]
      by_cases h8 : 8 ≤ a.data.length
      · have hdata : ∀ j, j < a.data.length →
            b.getD (offset + (4 + j)) 0 = a.data.getD j 0 := by
          intro j hj
          have h := hbytes (4 + j)
          rw [attrsBytes_cons] at h
          rw [List.getD_append _ _ _ _ (by rw [hal]; omega)] at h
          rw [h]
          exact attrBytes_getD_data a j hj
        have hfam : b.getD (offset + 5) 0 = a.data.getD 1 0 := by
          have h := hdata 1 (by omega)
          simpa using h
        have hp1 : b.getD (offset + 6) 0 = a.data.getD 2 0 := by
          have h := hdata 2 (by omega)
          simpa using h
        have hp2 : b.getD (offset + 7) 0 = a.data.getD 3 0 := by
          have h := hdata 3 (by omega)
          simpa using h
        have ha1 : b.getD (offset + 8) 0 = a.data.getD 4 0 := by
          have h := hdata 4 (by omega)
          simpa using h
        have ha2 : b.getD (offset + 9) 0 = a.data.getD 5 0 := by
          have h := hdata 5 (by omega)
          simpa using h
        have ha3 : b.getD (offset + 10) 0 = a.data.getD 6 0 := by
          have h := hdata 6 (by omega)
          simpa using h
        have ha4 : b.getD (offset + 11) 0 = a.data.getD 7 0 := by
          have h := hdata 7 (by omega)
          simpa using h
        rw [hfam, hp1, hp2, ha1, ha2, ha3, ha4]
        by_cases hc1 : a.atype = 32 ∧ 8 ≤ a.data.length ∧
            a.data.getD 1 0 = 1
        · rw [if_pos hc1]
          simp only [firstAddr, decodeAddrAttr]
          rw [if_pos hc1]
        · rw [if_neg hc1]
          by_cases hc2 : a.atype = 1 ∧ 8 ≤ a.data.length ∧
              a.data.getD 1 0 = 1
          · rw [if_pos hc2]
            simp only [firstAddr, decodeAddrAttr]
            rw [if_neg hc1, if_pos hc2]
          · rw [if_neg hc2, hrec]
            simp only [firstAddr, decodeAddrAttr]
            rw [if_neg hc1, if_neg hc2]
      · rw [if_neg (fun hc => h8 hc.2.1), if_neg (fun hc => h8 hc.2.1), hrec]
        simp only [firstAddr, decodeAddrAttr]
        rw [if_neg (fun hc => h8 hc.2.1), if_neg (fun hc => h8 hc.2.1)]

/-- C9 (corrected): on a valid binding response the parser returns the
FIRST address attribute in wire order — XOR-MAPPED-ADDRESS (0x0020, IPv4,
port and address un-XORed with the magic cookie) or MAPPED-ADDRESS
(0x0001, IPv4, taken literally), whichever comes first; it does not
prefer XOR-MAPPED-ADDRESS over an earlier MAPPED-ADDRESS. -/
theorem C9_stun_first_address (txn : List Nat) (attrs : List StunAttr)
    (htxn : txn.length = 12)
    (hw : ∀ a ∈ attrs, a.atype < 2 ^ 16 ∧ a.data.length ≤ 65535)
    (hbody : (attrsBytes attrs).length ≤ 65535) :
    parse_stun_response (mkResponse txn attrs) txn = firstAddr attrs := by
  have hhl : (([1, 1, (attrsBytes attrs).length / 256 % 256,
      (attrsBytes attrs).length % 256, 33, 18, 164, 66] : List Nat) ++
        txn).length = 20 := by
    simp [htxn]
  have hblen : (mkResponse txn attrs).length =
      20 + (attrsBytes attrs).length := by
    simp [mkResponse, htxn]
    omega
  have hbody20 : ∀ k, (mkResponse txn attrs).getD (20 + k) 0 =
      (attrsBytes attrs).getD k 0 := by
    intro k
    have hsh : mkResponse txn attrs =
        ([1, 1, (attrsBytes attrs).length / 256 % 256,
          (attrsBytes attrs).length % 256, 33, 18, 164, 66] ++ txn) ++
          attrsBytes attrs := by
      simp [mkResponse]
    rw [hsh, List.getD_append_right _ _ _ _ (by rw [hhl]; omega), hhl]
    congr 1
    omega
  have htxnb : ∀ i, i < 12 →
      (mkResponse txn attrs).getD (8 + i) 0 = txn.getD i 0 := by
    intro i hi
    have hsh : mkResponse txn attrs =
        ([1, 1, (attrsBytes attrs).length / 256 % 256,
          (attrsBytes attrs).length % 256, 33, 18, 164, 66] : List Nat) ++
          (txn ++ attrsBytes attrs) := by
      simp [mkResponse]
    rw [hsh, List.getD_append_right _ _ _ _ (by simp)]
    have h8 : 8 + i - (([1, 1, (attrsBytes attrs).length / 256 % 256,
        (attrsBytes attrs).length % 256, 33, 18, 164, 66] : List Nat)).length
        = i := by
      simp
    rw [h8, List.getD_append _ _ _ _ (by omega)]
  have hb0 : (mkResponse txn attrs).getD 0 0 = 1 := by simp [mkResponse]
  have hb1 : (mkResponse txn attrs).getD 1 0 = 1 := by simp [mkResponse]
  have hb2 : (mkResponse txn attrs).getD 2 0 =
      (attrsBytes attrs).length / 256 % 256 := by simp [mkResponse]
  have hb3 : (mkResponse txn attrs).getD 3 0 =
      (attrsBytes attrs).length % 256 := by simp [mkResponse]
  have hb4 : (mkResponse txn attrs).getD 4 0 = 33 := by simp [mkResponse]
  have hb5 : (mkResponse txn attrs).getD 5 0 = 18 := by simp [mkResponse]
  have hb6 : (mkResponse txn attrs).getD 6 0 = 164 := by simp [mkResponse]
  have hb7 : (mkResponse txn attrs).getD 7 0 = 66 := by simp [mkResponse]
  have hml : (mkResponse txn attrs).getD 2 0 * 256 +
      (mkResponse txn attrs).getD 3 0 = (attrsBytes attrs).length := by
    rw [hb2, hb3]
    omega
  simp only [parse_stun_response]
  rw [if_neg (by rw [hblen]; omega)]
  rw [if_neg (by rw [hb0, hb1]; omega)]
  rw [if_neg (by rw [hb4, hb5, hb6, hb7]; simp [STUN_MAGIC_COOKIE])]
  rw [if_neg (by
    simp only [not_not, List.all_eq_true]
    intro i hi
    rw [beq_iff_eq]
    exact htxnb i (List.mem_range.mp hi))]
  rw [hml]
  apply stunAttrLoop_refines (mkResponse txn attrs) (attrsBytes attrs).length
    (by omega) attrs 20 (mkResponse txn attrs).length hw (by omega)
  · rw [hblen]
    have := attrsBytes_ge attrs
    omega
  · exact hbody20

def stunTxn : List Nat := [1, 2, 3, 4, 5, 6, 7, 8, 9, 10, 11, 12]

/-- MAPPED-ADDRESS for 203.0.113.9:4242. -/
def mappedAttr : StunAttr := ⟨1, [0, 1, 16, 146, 203, 0, 113, 9]⟩

/-- XOR-MAPPED-ADDRESS for 192.0.2.1:54321 (already XORed with the magic
cookie on the wire). -/
def xorAttr : StunAttr := ⟨32, [0, 1, 245, 35, 225, 18, 166, 67]⟩

/-- C9 counterexample: a valid response carrying MAPPED-ADDRESS
(203.0.113.9:4242) before XOR-MAPPED-ADDRESS (192.0.2.1:54321) is decoded
to the MAPPED address: the walk returns the first address attribute and
does not prefer the XOR one. -/
theorem C9_counterexample :
    parse_stun_response (mkResponse stunTxn [mappedAttr, xorAttr]) stunTxn =
      some (4242, 3405803785) ∧
    decodeAddrAttr xorAttr = some (54321, 3221225985) ∧
    (4242, 3405803785) ≠ ((54321 : Nat), (3221225985 : Nat)) := by
  refine ⟨by decide, by decide, by decide⟩

theorem C9_stun_first_address_witness :
    stunTxn.length = 12 ∧
    (∀ a ∈ [xorAttr], a.atype < 2 ^ 16 ∧ a.data.length ≤ 65535) ∧
    (attrsBytes [xorAttr]).length ≤ 65535 ∧
    parse_stun_response (mkResponse stunTxn [xorAttr]) stunTxn =
      firstAddr [xorAttr] ∧
    firstAddr [xorAttr] = some (54321, 3221225985) :=
  ⟨by decide, by decide, by decide,
   C9_stun_first_address stunTxn [xorAttr] (by decide) (by decide)
     (by decide),
   by decide⟩

/- Receiver state machine (main.c). States are the app_state_t enum; the
main-loop switch (lines 751-813) and the network-thread handlers
process_video_fragment / process_keepalive / process_probe (lines
254-395) are the only sites that call change_state. protocol.h defines
FPV_SESSION_IDLE_TIMEOUT_MS = 3000 but no code references it. -/

inductive AppState where
  | INIT
  | STUN_GATHER
  | WAIT_SENDER
  | PUNCHING
  | STREAMING
  | ERROR
deriving DecidableEq

structure MainCtx where
  state : AppState
  sender_known : Bool
deriving DecidableEq

/-- One stimulus to the state machine: a main-loop iteration (with the
current clock, the state-entry time and the STUN outcome for the states
that use them), or an incoming datagram handled by the network thread. -/
inductive MainEv where
  | tick (stun_ok : Bool) (have_url : Bool) (now enter : Nat)
  | probe (valid : Bool)
  | keepalive (valid : Bool)
  | fragment (valid : Bool)

/-- The state effect of one stimulus, transcribed from the main-loop
switch and the three packet handlers. send_periodic_messages (the whole
STATE_STREAMING arm) only sends keepalives and IDR requests and never
calls change_state. -/
def mainStep (c : MainCtx) (e : MainEv) : MainCtx :=
  match e with
  | MainEv.tick stun_ok have_url now enter =>
    match c.state with
    | AppState.STUN_GATHER =>
      if stun_ok then
        if have_url then { c with state := AppState.WAIT_SENDER }
        else { c with state := AppState.ERROR }
      else if 10000000 < now - enter then { c with state := AppState.ERROR }
      else c
    | AppState.WAIT_SENDER =>
      if 60000000 < now - enter then { c with state := AppState.ERROR }
      else c
    | _ => c
  | MainEv.probe valid =>
    if valid ∧ (c.sender_known = false ∨ c.state = AppState.PUNCHING) then
      { state := if c.state = AppState.PUNCHING then AppState.STREAMING
          else c.state,
        sender_known := true }
    else c
  | MainEv.keepalive valid =>
    if valid ∧ c.sender_known = false then { c with sender_known := true }
    else c
  | MainEv.fragment _ => c

/-- C7 (code bug): from STREAMING no stimulus sequence — in particular no
idle stretch longer than FPV_SESSION_IDLE_TIMEOUT_MS with no incoming
datagram — ever leaves STREAMING: the idle-shutdown transition of the
claim does not exist in main.c. -/
theorem C7_no_idle_exit (evs : List MainEv) :
    ∀ c : MainCtx, c.state = AppState.STREAMING →
      (evs.foldl mainStep c).state = AppState.STREAMING := by
  induction evs with
  | nil => intro c h; simpa using h
  | cons e rest ih =>
    intro c h
    rw [List.foldl_cons]
    apply ih
    cases e with
    | tick stun_ok have_url now enter =>
      simp only [mainStep, h]
    | probe valid =>
      simp only [mainStep]
      by_cases hc : valid ∧ (c.sender_known = false ∨
          c.state = AppState.PUNCHING)
      · rw [if_pos hc]
        simp [h]
      · rw [if_neg hc]
        exact h
    | keepalive valid =>
      simp only [mainStep]
      by_cases hc : valid ∧ c.sender_known = false
      · rw [if_pos hc]
        exact h
      · rw [if_neg hc]
        exact h
    | fragment valid =>
      simpa [mainStep] using h

theorem C7_no_idle_exit_witness :
    (MainCtx.mk AppState.STREAMING true).state = AppState.STREAMING ∧
    ((List.replicate 5
        (MainEv.tick false false 4000000 0)).foldl mainStep
      (MainCtx.mk AppState.STREAMING true)).state = AppState.STREAMING :=
  ⟨rfl,
   C7_no_idle_exit (List.replicate 5 (MainEv.tick false false 4000000 0))
     (MainCtx.mk AppState.STREAMING true) rfl⟩

end Fpv
